import Mathlib

/-!
Verification development for the tsndt repository.

The repository is a network telemetry tool: an eBPF/XDP program
(`src/tsndt-ebpf/src/main.rs`) counts packets and bytes per ingress
interface and per source MAC address in per-CPU kernel hash maps, and a
userspace TUI (`src/tsndt/src/context/ethernet.rs`,
`src/tsndt/src/context/network_interface.rs`) reads those maps each tick,
sums the per-CPU slots, records per-tick deltas in bounded series, evicts
idle MAC addresses and manages XDP attach/detach.

Modelling conventions (shallow embedding of the Rust source):
* Rust `u32` / `u64` machine integers are `ℕ` with explicit `% 2 ^ 32` /
  `% 2 ^ 64` at the arithmetic sites where the source performs wrapping
  machine arithmetic (the release-build semantics of `+` and `-`; in a
  debug build the same expressions would panic on overflow, which the
  comments note where relevant).
* Rust `f64` fields (`tick_count`, `window_size`, `window`, the series
  points) only ever hold integer values derived from tick counting and
  counter subtraction; they are modelled as `ℤ`.  All concretely reachable
  values in the claims are far below `2 ^ 53`, where `f64` arithmetic on
  integers is exact.
* `std::collections::HashMap` and the kernel hash maps are modelled as
  association lists (`List (κ × α)`) so that every definition is
  executable; iteration order of a Rust `HashMap` is unspecified, and no
  theorem below depends on the particular order of the association list.
* A per-CPU map value is a total function `ℕ → ℕ` from the CPU id to that
  CPU's slot.
* Fallible operations return `Except Unit` / `Option`; `Vec` is `List`.
-/

set_option maxHeartbeats 1000000
set_option maxRecDepth 10000

/-! ## Definitions -/

section AssocMap

variable {κ α : Type} [DecidableEq κ]

/-- Hash-map lookup (`HashMap::get` / kernel map lookup), on the
association-list model: the first binding of the key wins. -/
def alookup : List (κ × α) → κ → Option α
  | [], _ => none
  | e :: t, k => if k = e.1 then some e.2 else alookup t k

/-- Hash-map insert (`HashMap::insert` / kernel map update): replaces the
first binding of the key in place, or appends a new binding. -/
def ainsert : List (κ × α) → κ → α → List (κ × α)
  | [], k, v => [(k, v)]
  | e :: t, k, v => if e.1 = k then (k, v) :: t else e :: ainsert t k v

/-- Hash-map remove (`HashMap::remove`): drops every binding of the key. -/
def aremove : List (κ × α) → κ → List (κ × α)
  | [], _ => []
  | e :: t, k => if e.1 = k then aremove t k else e :: aremove t k

end AssocMap

/-- Rust `u32` modulus. -/
def U32 : ℕ := 2 ^ 32

/-- Rust `u64` modulus. -/
def U64 : ℕ := 2 ^ 64

/-- A 6-byte source hardware address, the Rust key type `[u8; 6]`. -/
abbrev Mac : Type := ℕ × ℕ × ℕ × ℕ × ℕ × ℕ

/-! ### The eBPF counting program (`src/tsndt-ebpf/src/main.rs`) -/

/-- `xdp_action::XDP_ABORTED`. -/
def XDP_ABORTED : ℕ := 0

/-- `xdp_action::XDP_PASS`. -/
def XDP_PASS : ℕ := 2

/-- `mem::size_of::<EthHdr>()`: 6 bytes destination + 6 bytes source +
2 bytes ethertype. -/
def ETH_HDR_SIZE : ℕ := 14

/-- One received packet as the XDP context exposes it: the ingress
interface index (`ctx.ingress_ifindex()`), the buffer length
(`ctx.data_end() - ctx.data()`), the source MAC in its Ethernet header,
and the CPU the packet is processed on (per-CPU map slot selector). -/
structure Packet where
  ifindex : ℕ
  len : ℕ
  srcMac : Mac
  cpu : ℕ

/-- A kernel per-CPU hash map: each present key holds one counter slot per
CPU; the program only ever touches the current CPU's slot. -/
abbrev PerCpuMap (κ : Type) := List (κ × (ℕ → ℕ))

/-- The four `#[map]` statics of the eBPF program, by their source names. -/
structure XdpState where
  INTERFACE_RX_PACKET_COUNTERS : PerCpuMap ℕ
  INTERFACE_RX_BYTE_COUNTERS : PerCpuMap ℕ
  SRC_MAC_RX_PACKET_COUNTERS : PerCpuMap Mac
  SRC_MAC_RX_BYTE_COUNTERS : PerCpuMap Mac

/-- Success/failure of the four possible fresh `insert` calls of one packet
(`map.insert(..)` can fail in the kernel); in-place pointer increments
cannot fail. -/
structure InsertOracle where
  ifPkt : Bool
  ifByte : Bool
  macPkt : Bool
  macByte : Bool

/-- The all-successful oracle (every fresh insertion succeeds). -/
def allOk : InsertOracle := ⟨true, true, true, true⟩

/-- The source's per-map pattern: `get_ptr_mut` followed by an in-place
wrapping `+= v` on the current CPU's slot if the key is present, else
`insert` of a fresh value (current CPU's slot `v`, other slots
zero-initialised by the kernel); `ok` tells whether that insert succeeds.
`W` is the machine modulus of the value type. -/
def updateCounter {κ : Type} [DecidableEq κ] (W : ℕ) (ok : Bool)
    (m : PerCpuMap κ) (k : κ) (cpu v : ℕ) : Option (PerCpuMap κ) :=
  match alookup m k with
  | some slots => some (ainsert m k (fun c => if c = cpu then (slots c + v) % W else slots c))
  | none => if ok then some (ainsert m k (fun c => if c = cpu then v % W else 0)) else none

/-- The always-applied variant of `updateCounter` (used below to describe
runs where every insertion succeeds). -/
def bumpSlots {κ : Type} [DecidableEq κ] (W : ℕ)
    (m : PerCpuMap κ) (k : κ) (cpu v : ℕ) : PerCpuMap κ :=
  match alookup m k with
  | some slots => ainsert m k (fun c => if c = cpu then (slots c + v) % W else slots c)
  | none => ainsert m k (fun c => if c = cpu then v % W else 0)

/-- `ptr_at::<T>`: returns the offset when the read
`[offset, offset + size)` fits in the validated buffer, and an error when
`start + offset + size > data_end`, i.e. when the read would be out of
bounds.  No byte of the buffer is read here or on the error path. -/
def ptr_at (pktLen offset size : ℕ) : Except Unit ℕ :=
  if offset + size > pktLen then .error () else .ok offset

/-- `try_xdp_tsndt`: interface packet counter, interface byte counter,
Ethernet-header bounds check, source-MAC packet counter, source-MAC byte
counter, in source order; the first failure returns `Err` with all map
updates made so far kept (the kernel does not roll them back). -/
def try_xdp_tsndt (o : InsertOracle) (s : XdpState) (p : Packet) :
    XdpState × Except Unit ℕ :=
  match updateCounter U32 o.ifPkt s.INTERFACE_RX_PACKET_COUNTERS p.ifindex p.cpu 1 with
  | none => (s, .error ())
  | some ifp =>
    let s1 : XdpState := { s with INTERFACE_RX_PACKET_COUNTERS := ifp }
    match updateCounter U64 o.ifByte s1.INTERFACE_RX_BYTE_COUNTERS p.ifindex p.cpu p.len with
    | none => (s1, .error ())
    | some ifb =>
      let s2 : XdpState := { s1 with INTERFACE_RX_BYTE_COUNTERS := ifb }
      match ptr_at p.len 0 ETH_HDR_SIZE with
      | .error _ => (s2, .error ())
      | .ok _ =>
        match updateCounter U32 o.macPkt s2.SRC_MAC_RX_PACKET_COUNTERS p.srcMac p.cpu 1 with
        | none => (s2, .error ())
        | some mp =>
          let s3 : XdpState := { s2 with SRC_MAC_RX_PACKET_COUNTERS := mp }
          match updateCounter U64 o.macByte s3.SRC_MAC_RX_BYTE_COUNTERS p.srcMac p.cpu p.len with
          | none => (s3, .error ())
          | some mb => ({ s3 with SRC_MAC_RX_BYTE_COUNTERS := mb }, .ok XDP_PASS)

/-- `xdp_tsndt`: the exported program; `Err` becomes `XDP_ABORTED`. -/
def xdp_tsndt (o : InsertOracle) (s : XdpState) (p : Packet) : XdpState × ℕ :=
  match try_xdp_tsndt o s p with
  | (s', .ok r) => (s', r)
  | (s', .error _) => (s', XDP_ABORTED)

/-- Previous value of the current CPU's slot for a key (0 when the key is
absent, matching the "fresh insertion counts from zero" reading). -/
def prevSlot {κ : Type} [DecidableEq κ] (m : PerCpuMap κ) (k : κ) (cpu : ℕ) : ℕ :=
  match alookup m k with
  | some f => f cpu
  | none => 0

def ifPktStepOk (o : InsertOracle) (s : XdpState) (p : Packet) : Prop :=
  (alookup s.INTERFACE_RX_PACKET_COUNTERS p.ifindex).isSome = true ∨ o.ifPkt = true

def ifByteStepOk (o : InsertOracle) (s : XdpState) (p : Packet) : Prop :=
  (alookup s.INTERFACE_RX_BYTE_COUNTERS p.ifindex).isSome = true ∨ o.ifByte = true

def macPktStepOk (o : InsertOracle) (s : XdpState) (p : Packet) : Prop :=
  (alookup s.SRC_MAC_RX_PACKET_COUNTERS p.srcMac).isSome = true ∨ o.macPkt = true

def macByteStepOk (o : InsertOracle) (s : XdpState) (p : Packet) : Prop :=
  (alookup s.SRC_MAC_RX_BYTE_COUNTERS p.srcMac).isSome = true ∨ o.macByte = true

/-- Userspace per-CPU summation as `on_tick` performs it:
`across_cpus_val += cpu_val` in wrapping machine arithmetic. -/
def sumAcrossCpus (W numCpus : ℕ) (slots : ℕ → ℕ) : ℕ :=
  (List.range numCpus).foldl (fun acc c => (acc + slots c) % W) 0

/-- Kernel-side processing of a packet sequence: fold of the XDP program. -/
def processPkts (o : InsertOracle) (s : XdpState) (ps : List Packet) : XdpState :=
  ps.foldl (fun s p => (xdp_tsndt o s p).1) s

/-- Repeated `bumpSlots` of one key with a list of (cpu, value) increments. -/
def bumpFold {κ : Type} [DecidableEq κ] (W : ℕ) (k : κ) (kv : List (ℕ × ℕ))
    (m : PerCpuMap κ) : PerCpuMap κ :=
  kv.foldl (fun m cv => bumpSlots W m k cv.1 cv.2) m

/-- Exact amount contributed to CPU `c` by the increment list. -/
def cpuValTotal (kv : List (ℕ × ℕ)) (c : ℕ) : ℕ :=
  ((kv.filter (fun e => decide (e.1 = c))).map (fun e => e.2)).sum

/-! ### The userspace Ethernet aggregator (`src/tsndt/src/context/ethernet.rs`) -/

/-- `TICK_RATE_MS` (`src/tsndt/src/app.rs`). -/
def TICK_RATE_MS : ℕ := 200

/-- `IDLE_MAC_ADDR_TIMEOUT_SEC`. -/
def IDLE_MAC_ADDR_TIMEOUT_SEC : ℕ := 300

/-- `IDLE_MAC_ADDR_TIMEOUT_NUM_TICKS = 300 * (1000 / 200)`, exact in `f64`. -/
def IDLE_MAC_ADDR_TIMEOUT_NUM_TICKS : ℤ := 1500

/-- The model half of `EthernetContext` (`struct EthernetModel`), with the
`f64` fields as integers and each `HashMap` as an association list.  The
view-only field `displaying` plays no role in the tick logic and is
omitted. -/
structure EthModel where
  src_macs : List Mac
  last_active_tick : List (Mac × ℤ)
  cumul_packet_counts : List (Mac × ℕ)
  tick_packet_count_data : List (Mac × List (ℤ × ℤ))
  cumul_byte_counts : List (Mac × ℕ)
  tick_byte_count_data : List (Mac × List (ℤ × ℤ))
  tick_count : ℤ
  window_size : ℤ
  window : ℤ × ℤ

/-- Wrapping unsigned subtraction `a - b` at width `W`: the release-build
meaning of the source's `across_cpus_val - prev_val` (a debug build would
panic when `prev_val > across_cpus_val`). -/
def wrapSub (W a b : ℕ) : ℕ := (W + a % W - b % W) % W

/-- The three series-update lines of `on_tick`:
`if l.len() as f64 > window_size { l.remove(0); } ... l.push(pt)`. -/
def pushTickPoint (ws : ℤ) (l : List (ℤ × ℤ)) (pt : ℤ × ℤ) : List (ℤ × ℤ) :=
  (if (l.length : ℤ) > ws then l.drop 1 else l) ++ [pt]

/-- One iteration of the first `on_tick` loop (packet counters), for the
kernel-map entry `(mac, slots)`: lazy registration of an untracked MAC
(series and counters reset to empty/zero), wrapping delta against the
stored cumulative value, series push, cumulative update, and the
last-active-tick update guarded by `across_cpus_val > prev_val`.
The source's `.unwrap()` lookups are total here via `getD`; registration
guarantees the keys are present whenever the source would not panic. -/
def ethRegister (m0 : EthModel) (mac : Mac) : EthModel :=
  if (alookup m0.last_active_tick mac).isSome then m0 else
    { m0 with
      src_macs := m0.src_macs ++ [mac],
      cumul_byte_counts := ainsert m0.cumul_byte_counts mac 0,
      cumul_packet_counts := ainsert m0.cumul_packet_counts mac 0,
      tick_byte_count_data := ainsert m0.tick_byte_count_data mac [],
      tick_packet_count_data := ainsert m0.tick_packet_count_data mac [] }

def ethProcessPacketEntry (numCpus : ℕ) (m0 : EthModel) (mac : Mac) (slots : ℕ → ℕ) :
    EthModel :=
  let m := ethRegister m0 mac
  let l := (alookup m.tick_packet_count_data mac).getD []
  let prev := (alookup m.cumul_packet_counts mac).getD 0
  let across := sumAcrossCpus U32 numCpus slots
  let l' := pushTickPoint m.window_size l (m.tick_count, (wrapSub U32 across prev : ℕ))
  let m' := { m with
    tick_packet_count_data := ainsert m.tick_packet_count_data mac l',
    cumul_packet_counts := ainsert m.cumul_packet_counts mac across }
  if across > prev then
    { m' with last_active_tick := ainsert m'.last_active_tick mac m'.tick_count }
  else m'

/-- One iteration of the second `on_tick` loop (byte counters): no
registration, wrapping delta, series push, cumulative update. -/
def ethProcessByteEntry (numCpus : ℕ) (m : EthModel) (mac : Mac) (slots : ℕ → ℕ) :
    EthModel :=
  let l := (alookup m.tick_byte_count_data mac).getD []
  let prev := (alookup m.cumul_byte_counts mac).getD 0
  let across := sumAcrossCpus U64 numCpus slots
  let l' := pushTickPoint m.window_size l (m.tick_count, (wrapSub U64 across prev : ℕ))
  { m with
    tick_byte_count_data := ainsert m.tick_byte_count_data mac l',
    cumul_byte_counts := ainsert m.cumul_byte_counts mac across }

/-- The `to_remove` collection: every tracked MAC with
`tick_count - IDLE_MAC_ADDR_TIMEOUT_NUM_TICKS >= last_active_tick`. -/
def ethCollectToRemove (m : EthModel) : List Mac :=
  (m.last_active_tick.filter
    (fun e => decide (m.tick_count - IDLE_MAC_ADDR_TIMEOUT_NUM_TICKS ≥ e.2))).map
    (fun e => e.1)

/-- `Vec::swap_remove(i)`: replace index `i` with the last element and pop. -/
def swapRemove {α : Type} (l : List α) (i : ℕ) : List α :=
  match l.getLast? with
  | none => l
  | some last => (l.set i last).dropLast

/-- The per-MAC local part of the eviction loop body: the five `remove`
calls and the `position`/`swap_remove` on `src_macs`. -/
def ethRemoveLocal (m : EthModel) (mac : Mac) : EthModel :=
  { m with
    cumul_byte_counts := aremove m.cumul_byte_counts mac,
    cumul_packet_counts := aremove m.cumul_packet_counts mac,
    tick_byte_count_data := aremove m.tick_byte_count_data mac,
    tick_packet_count_data := aremove m.tick_packet_count_data mac,
    last_active_tick := aremove m.last_active_tick mac,
    src_macs := match m.src_macs.findIdx? (fun x => decide (x = mac)) with
      | some i => swapRemove m.src_macs i
      | none => m.src_macs }

/-- Modelled from the spec: deleting a key from a kernel table fails when
the key is already absent (the spec's design note records that the kernel
may have evicted it first through its LRU policy, and that such a delete
reports "key already absent" as an error unless userspace translates it
to success).  The `aya` map `remove` wrapper that realises this lives
outside this repository's sources. -/
def kremove {κ : Type} [DecidableEq κ] (t : PerCpuMap κ) (k : κ) :
    Except Unit (PerCpuMap κ) :=
  if (alookup t k).isSome then .ok (aremove t k) else .error ()

/-- The eviction loop over `to_remove`: local removals first, then the two
kernel-table deletions whose `?` aborts `on_tick` on error, keeping all
mutations already applied (the `Bool` is false when the loop was cut short
by such an error). -/
def ethEvictLoop :
    List Mac → EthModel × PerCpuMap Mac × PerCpuMap Mac →
      (EthModel × PerCpuMap Mac × PerCpuMap Mac) × Bool
  | [], st => (st, true)
  | mac :: rest, st =>
    let m' := ethRemoveLocal st.1 mac
    match kremove st.2.1 mac with
    | .error _ => ((m', st.2.1, st.2.2), false)
    | .ok kp' =>
      match kremove st.2.2 mac with
      | .error _ => ((m', kp', st.2.2), false)
      | .ok kb' => ethEvictLoop rest (m', kp', kb')

/-- The counter-reading phase of `EthernetModel::on_tick`: tick increment,
then the packet-counter loop over the kernel packet map entries, then the
byte-counter loop over the kernel byte map entries. -/
def ethPhaseCounters (numCpus : ℕ) (kp kb : PerCpuMap Mac) (m : EthModel) : EthModel :=
  let m1 := { m with tick_count := m.tick_count + 1 }
  let m2 := kp.foldl (fun acc e => ethProcessPacketEntry numCpus acc e.1 e.2) m1
  kb.foldl (fun acc e => ethProcessByteEntry numCpus acc e.1 e.2) m2

/-- `EthernetModel::on_tick`, whole: counters, idle eviction, window
advance; `false` means the tick returned `Err` (from a kernel-table
delete), with every mutation made before the failure kept, the window
advance skipped and the remaining evictions unprocessed. -/
def ethOnTick (numCpus : ℕ) (kp kb : PerCpuMap Mac) (m : EthModel) :
    (EthModel × PerCpuMap Mac × PerCpuMap Mac) × Bool :=
  let m2 := ethPhaseCounters numCpus kp kb m
  let res := ethEvictLoop (ethCollectToRemove m2) (m2, kp, kb)
  if res.2 then
    let m3 := res.1.1
    let m4 := if m3.tick_count > m3.window_size then
        { m3 with window := (m3.window.1 + 1, m3.window.2 + 1) } else m3
    ((m4, res.1.2.1, res.1.2.2), true)
  else res

/-- Absence of a MAC from all five local structures and both kernel maps. -/
def evictedState (st : EthModel × PerCpuMap Mac × PerCpuMap Mac) (mac : Mac) : Prop :=
  alookup st.1.last_active_tick mac = none ∧
  alookup st.1.cumul_packet_counts mac = none ∧
  alookup st.1.cumul_byte_counts mac = none ∧
  alookup st.1.tick_packet_count_data mac = none ∧
  alookup st.1.tick_byte_count_data mac = none ∧
  alookup st.2.1 mac = none ∧
  alookup st.2.2 mac = none

/-- The `prev_val` the packet loop compares against: the stored cumulative
packet count, or 0 for a MAC registered this iteration. -/
def ethPrevPacketVal (m : EthModel) (mac : Mac) : ℕ :=
  if (alookup m.last_active_tick mac).isSome = true then
    (alookup m.cumul_packet_counts mac).getD 0
  else 0

/-- Every series currently stored is at most `n` points long. -/
def seriesLenOk (n : ℕ) (m : EthModel) : Prop :=
  (∀ mac l, alookup m.tick_packet_count_data mac = some l → l.length ≤ n) ∧
  (∀ mac l, alookup m.tick_byte_count_data mac = some l → l.length ≤ n)

/-! ### The userspace interface aggregator
(`src/tsndt/src/context/network_interface.rs`) -/

/-- The model half of `NetworkInterfaceContext` (`struct
NetworkInterfaceModel`): interfaces by index, counters and series keyed by
interface index, the collecting flags and the opaque XDP link handles
(tokens).  `f64` fields are integers, `HashMap`s association lists. -/
structure NetIfModel where
  interfaces : List ℕ
  cumul_packet_counts : List (ℕ × ℕ)
  tick_packet_count_data : List (ℕ × List (ℤ × ℤ))
  cumul_byte_counts : List (ℕ × ℕ)
  tick_byte_count_data : List (ℕ × List (ℤ × ℤ))
  tick_count : ℤ
  collecting : List (ℕ × Bool)
  xdp_link_ids : List (ℕ × ℕ)
  window_size : ℤ
  window : ℤ × ℤ

/-- `NetworkInterfaceModel::attach_ebpf_program`: fails when the index is
not a known interface; otherwise records a link handle and zero-initialises
each kernel counter entry only when it is absent (`get(..).is_err()`).
The kernel tables are threaded as explicit state. -/
def attach_ebpf_program (m : NetIfModel) (kp kb : PerCpuMap ℕ) (i : ℕ) :
    Except Unit (NetIfModel × PerCpuMap ℕ × PerCpuMap ℕ) :=
  if i ∈ m.interfaces then
    let m' := { m with xdp_link_ids := ainsert m.xdp_link_ids i 0 }
    let kp' := if (alookup kp i).isSome then kp else ainsert kp i (fun _ => 0)
    let kb' := if (alookup kb i).isSome then kb else ainsert kb i (fun _ => 0)
    .ok (m', kp', kb')
  else .error ()

/-- `NetworkInterfaceModel::detach_ebpf_program`: fails when no link handle
is recorded; otherwise removes the handle, zero-initialises each kernel
counter entry only when absent, and resets both series to the single
zero-valued point `[(0, 0)]`. -/
def detach_ebpf_program (m : NetIfModel) (kp kb : PerCpuMap ℕ) (i : ℕ) :
    Except Unit (NetIfModel × PerCpuMap ℕ × PerCpuMap ℕ) :=
  match alookup m.xdp_link_ids i with
  | none => .error ()
  | some _ =>
    let kp' := if (alookup kp i).isSome then kp else ainsert kp i (fun _ => 0)
    let kb' := if (alookup kb i).isSome then kb else ainsert kb i (fun _ => 0)
    let m' := { m with
      xdp_link_ids := aremove m.xdp_link_ids i,
      tick_packet_count_data := ainsert m.tick_packet_count_data i [(0, 0)],
      tick_byte_count_data := ainsert m.tick_byte_count_data i [(0, 0)] }
    .ok (m', kp', kb')

/-- The sequence `attach(i); detach(i); attach(i)` on interface `i`. -/
def attachDetachAttach (m : NetIfModel) (kp kb : PerCpuMap ℕ) (i : ℕ) :
    Except Unit (NetIfModel × PerCpuMap ℕ × PerCpuMap ℕ) := do
  let r1 ← attach_ebpf_program m kp kb i
  let r2 ← detach_ebpf_program r1.1 r1.2.1 r1.2.2 i
  attach_ebpf_program r2.1 r2.2.1 r2.2.2 i

/-- The packet-counter loop of `NetworkInterfaceModel::on_tick`:
`get(&interface.index, 0)?` propagates an error when a kernel entry is
missing (the `Bool` is false then, mutations so far kept). -/
def netIfTickPkt (numCpus : ℕ) (kp : PerCpuMap ℕ) :
    List ℕ → NetIfModel → NetIfModel × Bool
  | [], m => (m, true)
  | i :: rest, m =>
    match alookup kp i with
    | none => (m, false)
    | some slots =>
      let l := (alookup m.tick_packet_count_data i).getD []
      let prev := (alookup m.cumul_packet_counts i).getD 0
      let across := sumAcrossCpus U32 numCpus slots
      let l' := pushTickPoint m.window_size l
        (m.tick_count, (wrapSub U32 across prev : ℕ))
      netIfTickPkt numCpus kp rest
        { m with
          tick_packet_count_data := ainsert m.tick_packet_count_data i l',
          cumul_packet_counts := ainsert m.cumul_packet_counts i across }

/-- The byte-counter loop of `NetworkInterfaceModel::on_tick`. -/
def netIfTickByte (numCpus : ℕ) (kb : PerCpuMap ℕ) :
    List ℕ → NetIfModel → NetIfModel × Bool
  | [], m => (m, true)
  | i :: rest, m =>
    match alookup kb i with
    | none => (m, false)
    | some slots =>
      let l := (alookup m.tick_byte_count_data i).getD []
      let prev := (alookup m.cumul_byte_counts i).getD 0
      let across := sumAcrossCpus U64 numCpus slots
      let l' := pushTickPoint m.window_size l
        (m.tick_count, (wrapSub U64 across prev : ℕ))
      netIfTickByte numCpus kb rest
        { m with
          tick_byte_count_data := ainsert m.tick_byte_count_data i l',
          cumul_byte_counts := ainsert m.cumul_byte_counts i across }

/-- `NetworkInterfaceModel::on_tick`: tick increment, packet loop, byte
loop, window advance; a failed kernel read aborts the tick (`false`). -/
def netIfOnTick (numCpus : ℕ) (kp kb : PerCpuMap ℕ) (m : NetIfModel) :
    NetIfModel × Bool :=
  let m1 := { m with tick_count := m.tick_count + 1 }
  let r1 := netIfTickPkt numCpus kp m1.interfaces m1
  if r1.2 then
    let r2 := netIfTickByte numCpus kb r1.1.interfaces r1.1
    if r2.2 then
      let m3 := r2.1
      let m4 := if m3.tick_count > m3.window_size then
          { m3 with window := (m3.window.1 + 1, m3.window.2 + 1) } else m3
      (m4, true)
    else (r2.1, false)
  else (r1.1, false)

/-- `n` ticks against fixed kernel table contents. -/
def runNetIfTicks (numCpus : ℕ) (kp kb : PerCpuMap ℕ) : ℕ → NetIfModel → NetIfModel
  | 0, m => m
  | n + 1, m => runNetIfTicks numCpus kp kb n (netIfOnTick numCpus kp kb m).1

/-- The startup state of `NetworkInterfaceContext::new` for a host with
the single interface index 2: series seeded with one zero point, counters
zero, collecting on, window `[0, 50]`. -/
def netIfInit2 : NetIfModel :=
  { interfaces := [2],
    cumul_packet_counts := [(2, 0)],
    tick_packet_count_data := [(2, [(0, 0)])],
    cumul_byte_counts := [(2, 0)],
    tick_byte_count_data := [(2, [(0, 0)])],
    tick_count := 0,
    collecting := [(2, true)],
    xdp_link_ids := [(2, 0)],
    window_size := 50,
    window := (0, 50) }

/-- C6 counterexample input: interface 2 known, not attached, with a
nonzero kernel cumulative packet counter (37) and a two-point series. -/
def netIfC6 : NetIfModel :=
  { interfaces := [2],
    cumul_packet_counts := [(2, 37)],
    tick_packet_count_data := [(2, [(3, 5), (4, 9)])],
    cumul_byte_counts := [(2, 4100)],
    tick_byte_count_data := [(2, [(3, 700), (4, 1400)])],
    tick_count := 4,
    collecting := [(2, false)],
    xdp_link_ids := [],
    window_size := 50,
    window := (0, 50) }

/-- The MAC address aa:bb:cc:dd:ee:ff used in concrete scenarios. -/
def macA : Mac := (170, 187, 204, 221, 238, 255)

/-- C1 failing state: `macA` tracked with stored cumulative packet count
100; the kernel counter then reads 40 (a counter reset, e.g. after a
kernel-side LRU eviction and re-insertion). -/
def m0c1 : EthModel :=
  { src_macs := [macA],
    last_active_tick := [(macA, 1)],
    cumul_packet_counts := [(macA, 100)],
    tick_packet_count_data := [(macA, [])],
    cumul_byte_counts := [(macA, 0)],
    tick_byte_count_data := [(macA, [])],
    tick_count := 0,
    window_size := 50,
    window := (0, 50) }

/-- C5 failing state: `macA` tracked and idle past the 1500-tick timeout
(last active at tick 1, current tick about to become 1601). -/
def m0c5 : EthModel :=
  { src_macs := [macA],
    last_active_tick := [(macA, 1)],
    cumul_packet_counts := [(macA, 7)],
    tick_packet_count_data := [(macA, [(1, 7)])],
    cumul_byte_counts := [(macA, 900)],
    tick_byte_count_data := [(macA, [(1, 900)])],
    tick_count := 1600,
    window_size := 50,
    window := (1550, 1600) }

/-- C4 kernel-table inputs for the witness: `macA` present with values
equal to the stored cumulative counts (no new traffic). -/
def kpC4 : PerCpuMap Mac := [(macA, fun _ => 7)]

/-- Byte-counter twin of `kpC4`. -/
def kbC4 : PerCpuMap Mac := [(macA, fun _ => 900)]

/-! ### Kernel/userspace boundary names and layouts
(`src/tsndt-common/src/lib.rs` and the map declarations/lookups) -/

/-- Map name defined by the kernel program (`#[map] static
INTERFACE_RX_PACKET_COUNTERS`). -/
def ebpfInterfacePacketMapName : String := "INTERFACE_RX_PACKET_COUNTERS"

/-- Kernel-side interface byte map name. -/
def ebpfInterfaceByteMapName : String := "INTERFACE_RX_BYTE_COUNTERS"

/-- Kernel-side source-MAC packet map name. -/
def ebpfSrcMacPacketMapName : String := "SRC_MAC_RX_PACKET_COUNTERS"

/-- Kernel-side source-MAC byte map name. -/
def ebpfSrcMacByteMapName : String := "SRC_MAC_RX_BYTE_COUNTERS"

/-- Name `network_interface.rs` passes to `bpf.map_mut(..)` for the
interface packet table (`init_ebpf_programs`, `attach`, `detach`,
`on_tick`). -/
def userInterfacePacketMapName : String := "INGRESS_PACKET_COUNTERS"

/-- Userspace lookup name for the interface byte table. -/
def userInterfaceByteMapName : String := "INGRESS_BYTE_COUNTERS"

/-- Name `ethernet.rs` passes to `bpf.map(..)` for the source-MAC packet
table. -/
def userSrcMacPacketMapName : String := "SRC_MAC_RX_PACKET_COUNTERS"

/-- Userspace lookup name for the source-MAC byte table. -/
def userSrcMacByteMapName : String := "SRC_MAC_RX_BYTE_COUNTERS"

/-- Field layout of `tsndt-common`'s `#[repr(C)] struct Counter`:
`(field, byte width)` in declaration order. -/
def counterRecordLayout : List (String × ℕ) := [("bytes", 8), ("packets", 4)]

/-- Total bit width of the `Counter` record's fields. -/
def counterRecordBits : ℕ := 96

/-- Value bit widths of the four kernel maps as declared
(`PerCpuHashMap<u32, u32>`, `<u32, u64>`, `LruPerCpuHashMap<[u8;6], u32>`,
`<[u8;6], u64>`): bare integers, not the `Counter` record. -/
def ebpfMapValueBits : List (String × ℕ) :=
  [(ebpfInterfacePacketMapName, 32), (ebpfInterfaceByteMapName, 64),
   (ebpfSrcMacPacketMapName, 32), (ebpfSrcMacByteMapName, 64)]

/-- Value bit widths of the userspace-side map views
(`PerCpuHashMap<_, u32, u32>` / `u64` in `network_interface.rs` and
`ethernet.rs`). -/
def userMapValueBits : List (String × ℕ) :=
  [(userInterfacePacketMapName, 32), (userInterfaceByteMapName, 64),
   (userSrcMacPacketMapName, 32), (userSrcMacByteMapName, 64)]

/-! ## Theorems -/

section AssocMapLemmas

variable {κ α : Type} [DecidableEq κ]

theorem alookup_ainsert_self (l : List (κ × α)) (k : κ) (v : α) :
    alookup (ainsert l k v) k = some v := by
  induction l with
  | nil => simp [ainsert, alookup]
  | cons e t ih =>
    by_cases h : e.1 = k
    · simp [ainsert, h, alookup]
    · simp [ainsert, h, alookup, Ne.symm h, ih]

theorem alookup_ainsert_ne (l : List (κ × α)) (k k' : κ) (v : α) (h : k' ≠ k) :
    alookup (ainsert l k v) k' = alookup l k' := by
  induction l with
  | nil => simp [ainsert, alookup, h]
  | cons e t ih =>
    by_cases he : e.1 = k
    · simp [ainsert, he, alookup, h, he ▸ h]
    · by_cases hk : k' = e.1
      · simp [ainsert, he, alookup, hk]
      · simp [ainsert, he, alookup, hk, ih]

theorem alookup_aremove_self (l : List (κ × α)) (k : κ) :
    alookup (aremove l k) k = none := by
  induction l with
  | nil => simp [aremove, alookup]
  | cons e t ih =>
    by_cases h : e.1 = k
    · simpa [aremove, h] using ih
    · simp [aremove, h, alookup, Ne.symm h, ih]

theorem alookup_aremove_ne (l : List (κ × α)) (k k' : κ) (h : k' ≠ k) :
    alookup (aremove l k) k' = alookup l k' := by
  induction l with
  | nil => simp [aremove, alookup]
  | cons e t ih =>
    by_cases he : e.1 = k
    · have hne : ¬ k' = e.1 := fun h' => h (h' ▸ he)
      simp [aremove, he, alookup, hne, h, ih]
    · by_cases hk : k' = e.1
      · simp [aremove, he, alookup, hk]
      · simp [aremove, he, alookup, hk, ih]

theorem alookup_mem {l : List (κ × α)} {k : κ} {v : α} :
    alookup l k = some v → (k, v) ∈ l := by
  induction l with
  | nil => intro h; simp [alookup] at h
  | cons e t ih =>
    intro h
    rcases e with ⟨k0, v0⟩
    by_cases hk : k = k0
    · subst hk
      simp [alookup] at h
      subst h
      exact List.mem_cons_self _ _
    · simp [alookup, hk] at h
      exact List.mem_cons_of_mem _ (ih h)

end AssocMapLemmas

theorem updateCounter_true {κ : Type} [DecidableEq κ] (W : ℕ)
    (m : PerCpuMap κ) (k : κ) (cpu v : ℕ) :
    updateCounter W true m k cpu v = some (bumpSlots W m k cpu v) := by
  unfold updateCounter bumpSlots
  cases alookup m k <;> simp

theorem prevSlot_bumpSlots_self {κ : Type} [DecidableEq κ] (W : ℕ)
    (m : PerCpuMap κ) (k : κ) (cpu v : ℕ) :
    prevSlot (bumpSlots W m k cpu v) k cpu = (prevSlot m k cpu + v) % W := by
  unfold bumpSlots prevSlot
  rcases h : alookup m k with _ | f
  · simp [alookup_ainsert_self]
  · simp [alookup_ainsert_self]

theorem updateCounter_frame {κ : Type} [DecidableEq κ] {W : ℕ} {ok : Bool}
    {m m' : PerCpuMap κ} {k : κ} {cpu v : ℕ}
    (h : updateCounter W ok m k cpu v = some m') (k' : κ) (hk : k' ≠ k) :
    alookup m' k' = alookup m k' := by
  unfold updateCounter at h
  rcases hm : alookup m k with _ | f
  · rw [hm] at h
    rcases ok with _ | _
    · simp at h
    · simp at h
      subst h
      exact alookup_ainsert_ne _ _ _ _ hk
  · rw [hm] at h
    simp at h
    subst h
    exact alookup_ainsert_ne _ _ _ _ hk

theorem updateCounter_isSome {κ : Type} [DecidableEq κ] (W : ℕ) (ok : Bool)
    (m : PerCpuMap κ) (k : κ) (cpu v : ℕ) :
    (updateCounter W ok m k cpu v).isSome = true ↔
      ((alookup m k).isSome = true ∨ ok = true) := by
  unfold updateCounter
  rcases hm : alookup m k with _ | f
  · rcases ok with _ | _ <;> simp
  · simp

/-- C8: a packet shorter than the 14-byte Ethernet header makes the
counting program abort, with both source-MAC tables untouched; and
`ptr_at` hands out a pointer exactly when the requested read
`[offset, offset + size)` lies inside the validated buffer, so no
out-of-bounds read is performed. -/
theorem c8_short_packet_aborts_no_read (o : InsertOracle) (s : XdpState) (p : Packet)
    (h : p.len < ETH_HDR_SIZE) :
    (xdp_tsndt o s p).2 = XDP_ABORTED ∧
    (xdp_tsndt o s p).1.SRC_MAC_RX_PACKET_COUNTERS = s.SRC_MAC_RX_PACKET_COUNTERS ∧
    (xdp_tsndt o s p).1.SRC_MAC_RX_BYTE_COUNTERS = s.SRC_MAC_RX_BYTE_COUNTERS ∧
    (∀ plen off sz : ℕ, (∃ q, ptr_at plen off sz = .ok q) ↔ off + sz ≤ plen) := by
  have h14 : ETH_HDR_SIZE = 14 := rfl
  have hb : ptr_at p.len 0 ETH_HDR_SIZE = Except.error () := by
    unfold ptr_at
    rw [if_pos (by omega)]
  have hptr : ∀ plen off sz : ℕ, (∃ q, ptr_at plen off sz = .ok q) ↔ off + sz ≤ plen := by
    intro plen off sz
    constructor
    · rintro ⟨q, hq⟩
      unfold ptr_at at hq
      by_cases hle : off + sz > plen
      · rw [if_pos hle] at hq
        exact absurd hq (by simp)
      · omega
    · intro hle
      refine ⟨off, ?_⟩
      unfold ptr_at
      rw [if_neg (by omega)]
  unfold xdp_tsndt try_xdp_tsndt
  rcases hu1 : updateCounter U32 o.ifPkt s.INTERFACE_RX_PACKET_COUNTERS p.ifindex p.cpu 1 with _ | ifp
  · simp [hptr, XDP_ABORTED]
  · rcases hu2 : updateCounter U64 o.ifByte s.INTERFACE_RX_BYTE_COUNTERS p.ifindex p.cpu p.len with _ | ifb
    · simp [hu2, hptr, XDP_ABORTED]
    · simp [hu2, hb, hptr, XDP_ABORTED]

/-- C8 witness: a concrete 5-byte packet on interface 1. -/
theorem c8_witness :
    (5 : ℕ) < ETH_HDR_SIZE ∧
    ((xdp_tsndt allOk ⟨[], [], [], []⟩ ⟨1, 5, (0, 0, 0, 0, 0, 0), 0⟩).2 = XDP_ABORTED ∧
      (xdp_tsndt allOk ⟨[], [], [], []⟩ ⟨1, 5, (0, 0, 0, 0, 0, 0), 0⟩).1.SRC_MAC_RX_PACKET_COUNTERS
        = (⟨[], [], [], []⟩ : XdpState).SRC_MAC_RX_PACKET_COUNTERS ∧
      (xdp_tsndt allOk ⟨[], [], [], []⟩ ⟨1, 5, (0, 0, 0, 0, 0, 0), 0⟩).1.SRC_MAC_RX_BYTE_COUNTERS
        = (⟨[], [], [], []⟩ : XdpState).SRC_MAC_RX_BYTE_COUNTERS ∧
      (∀ plen off sz : ℕ, (∃ q, ptr_at plen off sz = .ok q) ↔ off + sz ≤ plen)) :=
  ⟨by decide, c8_short_packet_aborts_no_read allOk ⟨[], [], [], []⟩ _ (by decide)⟩

/-- C10: on a bounds-check failure the two interface-table updates have
already been applied and are kept in the resulting state, together with
the abort verdict (the kernel performs no rollback), so aborted short
packets are still counted in the interface tables. -/
theorem c10_abort_keeps_interface_counts (o : InsertOracle) (s : XdpState) (p : Packet)
    (h : p.len < ETH_HDR_SIZE) (h1 : o.ifPkt = true) (h2 : o.ifByte = true) :
    (xdp_tsndt o s p).2 = XDP_ABORTED ∧
    prevSlot (xdp_tsndt o s p).1.INTERFACE_RX_PACKET_COUNTERS p.ifindex p.cpu
      = (prevSlot s.INTERFACE_RX_PACKET_COUNTERS p.ifindex p.cpu + 1) % U32 ∧
    prevSlot (xdp_tsndt o s p).1.INTERFACE_RX_BYTE_COUNTERS p.ifindex p.cpu
      = (prevSlot s.INTERFACE_RX_BYTE_COUNTERS p.ifindex p.cpu + p.len) % U64 := by
  have h14 : ETH_HDR_SIZE = 14 := rfl
  have hb : ptr_at p.len 0 ETH_HDR_SIZE = Except.error () := by
    unfold ptr_at
    rw [if_pos (by omega)]
  unfold xdp_tsndt try_xdp_tsndt
  rw [h1, h2]
  simp only [updateCounter_true, hb]
  refine ⟨trivial, ?_, ?_⟩
  · exact prevSlot_bumpSlots_self U32 s.INTERFACE_RX_PACKET_COUNTERS p.ifindex p.cpu 1
  · exact prevSlot_bumpSlots_self U64 s.INTERFACE_RX_BYTE_COUNTERS p.ifindex p.cpu p.len

/-- C10 witness: a 3-byte packet on interface 4 processed on CPU 0 against
empty tables: it is aborted yet counted in the interface tables. -/
theorem c10_witness :
    ((3 : ℕ) < ETH_HDR_SIZE ∧ allOk.ifPkt = true ∧ allOk.ifByte = true) ∧
    ((xdp_tsndt allOk ⟨[], [], [], []⟩ ⟨4, 3, (0, 0, 0, 0, 0, 0), 0⟩).2 = XDP_ABORTED ∧
      prevSlot (xdp_tsndt allOk ⟨[], [], [], []⟩ ⟨4, 3, (0, 0, 0, 0, 0, 0), 0⟩).1.INTERFACE_RX_PACKET_COUNTERS 4 0
        = (prevSlot (⟨[], [], [], []⟩ : XdpState).INTERFACE_RX_PACKET_COUNTERS 4 0 + 1) % U32 ∧
      prevSlot (xdp_tsndt allOk ⟨[], [], [], []⟩ ⟨4, 3, (0, 0, 0, 0, 0, 0), 0⟩).1.INTERFACE_RX_BYTE_COUNTERS 4 0
        = (prevSlot (⟨[], [], [], []⟩ : XdpState).INTERFACE_RX_BYTE_COUNTERS 4 0 + 3) % U64) :=
  ⟨⟨by decide, rfl, rfl⟩,
    c10_abort_keeps_interface_counts allOk ⟨[], [], [], []⟩ ⟨4, 3, (0, 0, 0, 0, 0, 0), 0⟩
      (by decide) rfl rfl⟩

theorem notStepOk {κ : Type} [DecidableEq κ] {W : ℕ} {ok : Bool}
    {m : PerCpuMap κ} {k : κ} {cpu v : ℕ}
    (h : updateCounter W ok m k cpu v = none) :
    ¬ ((alookup m k).isSome = true ∨ ok = true) := by
  intro hc
  have := (updateCounter_isSome W ok m k cpu v).2 hc
  rw [h] at this
  simp at this

theorem stepOkOf {κ : Type} [DecidableEq κ] {W : ℕ} {ok : Bool}
    {m m' : PerCpuMap κ} {k : κ} {cpu v : ℕ}
    (h : updateCounter W ok m k cpu v = some m') :
    (alookup m k).isSome = true ∨ ok = true := by
  have := (updateCounter_isSome W ok m k cpu v).1
  rw [h] at this
  simpa using this (by simp)

/-- C7: the program returns `XDP_PASS` exactly when the bounds check and
all four table updates (or fresh insertions) succeed, and `XDP_ABORTED`
otherwise; and on an abort the tables are unchanged at every key other
than the packet's own interface index and source MAC, so one packet's
failure cannot corrupt state for other packets or other keys. -/
theorem c7_pass_iff_ok_and_abort_frame (o : InsertOracle) (s : XdpState) (p : Packet) :
    ((xdp_tsndt o s p).2 = XDP_PASS ↔
      (ifPktStepOk o s p ∧ ifByteStepOk o s p ∧ ETH_HDR_SIZE ≤ p.len ∧
        macPktStepOk o s p ∧ macByteStepOk o s p)) ∧
    ((xdp_tsndt o s p).2 = XDP_ABORTED →
      (∀ k : ℕ, k ≠ p.ifindex →
        alookup (xdp_tsndt o s p).1.INTERFACE_RX_PACKET_COUNTERS k
            = alookup s.INTERFACE_RX_PACKET_COUNTERS k ∧
        alookup (xdp_tsndt o s p).1.INTERFACE_RX_BYTE_COUNTERS k
            = alookup s.INTERFACE_RX_BYTE_COUNTERS k) ∧
      (∀ m : Mac, m ≠ p.srcMac →
        alookup (xdp_tsndt o s p).1.SRC_MAC_RX_PACKET_COUNTERS m
            = alookup s.SRC_MAC_RX_PACKET_COUNTERS m ∧
        alookup (xdp_tsndt o s p).1.SRC_MAC_RX_BYTE_COUNTERS m
            = alookup s.SRC_MAC_RX_BYTE_COUNTERS m)) := by
  unfold xdp_tsndt try_xdp_tsndt
  rcases hu1 : updateCounter U32 o.ifPkt s.INTERFACE_RX_PACKET_COUNTERS p.ifindex p.cpu 1 with _ | ifp
  · have hc1 : ¬ ifPktStepOk o s p := notStepOk hu1
    simp only [hu1]
    constructor
    · simp [XDP_PASS, XDP_ABORTED, hc1]
    · intro _
      exact ⟨fun k _ => ⟨trivial, trivial⟩, fun m _ => ⟨trivial, trivial⟩⟩
  · have hf1 := updateCounter_frame hu1
    simp only [hu1]
    rcases hu2 : updateCounter U64 o.ifByte s.INTERFACE_RX_BYTE_COUNTERS p.ifindex p.cpu p.len with _ | ifb
    · have hc2 : ¬ ifByteStepOk o s p := notStepOk hu2
      simp only [hu2]
      constructor
      · simp [XDP_PASS, XDP_ABORTED, hc2]
      · intro _
        exact ⟨fun k hk => ⟨hf1 k hk, trivial⟩, fun m _ => ⟨trivial, trivial⟩⟩
    · have hf2 := updateCounter_frame hu2
      simp only [hu2]
      rcases hbnd : ptr_at p.len 0 ETH_HDR_SIZE with u | q
      · have hlen : ¬ ETH_HDR_SIZE ≤ p.len := by
          unfold ptr_at at hbnd
          by_cases hle : 0 + ETH_HDR_SIZE > p.len
          · omega
          · rw [if_neg hle] at hbnd
            exact absurd hbnd (by simp)
        simp only [hbnd]
        constructor
        · simp [XDP_PASS, XDP_ABORTED, hlen]
        · intro _
          exact ⟨fun k hk => ⟨hf1 k hk, hf2 k hk⟩, fun m _ => ⟨trivial, trivial⟩⟩
      · have hlen : ETH_HDR_SIZE ≤ p.len := by
          unfold ptr_at at hbnd
          by_cases hle : 0 + ETH_HDR_SIZE > p.len
          · rw [if_pos hle] at hbnd
            exact absurd hbnd (by simp)
          · omega
        simp only [hbnd]
        rcases hu3 : updateCounter U32 o.macPkt s.SRC_MAC_RX_PACKET_COUNTERS p.srcMac p.cpu 1 with _ | mp
        · have hc3 : ¬ macPktStepOk o s p := notStepOk hu3
          simp only [hu3]
          constructor
          · simp [XDP_PASS, XDP_ABORTED, hc3]
          · intro _
            exact ⟨fun k hk => ⟨hf1 k hk, hf2 k hk⟩, fun m _ => ⟨trivial, trivial⟩⟩
        · have hf3 := updateCounter_frame hu3
          simp only [hu3]
          rcases hu4 : updateCounter U64 o.macByte s.SRC_MAC_RX_BYTE_COUNTERS p.srcMac p.cpu p.len with _ | mb
          · have hc4 : ¬ macByteStepOk o s p := notStepOk hu4
            simp only [hu4]
            constructor
            · simp [XDP_PASS, XDP_ABORTED, hc4]
            · intro _
              exact ⟨fun k hk => ⟨hf1 k hk, hf2 k hk⟩, fun m hm => ⟨hf3 m hm, trivial⟩⟩
          · have hc1 : ifPktStepOk o s p := stepOkOf hu1
            have hc2 : ifByteStepOk o s p := stepOkOf hu2
            have hc3 : macPktStepOk o s p := stepOkOf hu3
            have hc4 : macByteStepOk o s p := stepOkOf hu4
            simp only [hu4]
            constructor
            · exact iff_of_true trivial ⟨hc1, hc2, hlen, hc3, hc4⟩
            · intro hv
              exact absurd hv (by simp [XDP_PASS, XDP_ABORTED])

/-- C7 witness: a concrete aborted run (5-byte packet) leaves an unrelated
interface key untouched. -/
theorem c7_witness :
    ((xdp_tsndt allOk ⟨[], [], [], []⟩ ⟨1, 5, (0, 0, 0, 0, 0, 0), 0⟩).2 = XDP_ABORTED ∧ (9 : ℕ) ≠ 1) ∧
    (alookup (xdp_tsndt allOk ⟨[], [], [], []⟩ ⟨1, 5, (0, 0, 0, 0, 0, 0), 0⟩).1.INTERFACE_RX_PACKET_COUNTERS 9
        = alookup (⟨[], [], [], []⟩ : XdpState).INTERFACE_RX_PACKET_COUNTERS 9 ∧
      alookup (xdp_tsndt allOk ⟨[], [], [], []⟩ ⟨1, 5, (0, 0, 0, 0, 0, 0), 0⟩).1.INTERFACE_RX_BYTE_COUNTERS 9
        = alookup (⟨[], [], [], []⟩ : XdpState).INTERFACE_RX_BYTE_COUNTERS 9) :=
  ⟨⟨by decide, by decide⟩,
    ((c7_pass_iff_ok_and_abort_frame allOk ⟨[], [], [], []⟩ ⟨1, 5, (0, 0, 0, 0, 0, 0), 0⟩).2
        (by decide)).1 9 (by decide)⟩

theorem list_sum_map_add {α : Type} (l : List α) (A B : α → ℕ) :
    (l.map (fun x => A x + B x)).sum = (l.map A).sum + (l.map B).sum := by
  induction l with
  | nil => simp
  | cons a t ih => simp [ih]; omega

theorem sum_range_ite (n x v : ℕ) :
    ((List.range n).map (fun c => if x = c then v else 0)).sum
      = if x < n then v else 0 := by
  induction n with
  | zero => simp
  | succ n ih =>
    rw [List.range_succ, List.map_append, List.sum_append, ih]
    rcases lt_trichotomy x n with h | h | h
    · simp [h, Nat.lt_succ_of_lt h, Nat.ne_of_lt h]
    · simp [h, Nat.lt_succ_self]
    · simp [Nat.not_lt.2 (Nat.le_of_lt h), Nat.not_lt.2 (Nat.succ_le_of_lt h), Ne.symm (Nat.ne_of_lt h)]

theorem sum_mod_list (W : ℕ) (l : List ℕ) :
    ((l.map (fun x => x % W)).sum) % W = l.sum % W := by
  induction l with
  | nil => simp
  | cons a t ih =>
    simp only [List.map_cons, List.sum_cons]
    rw [Nat.add_mod, ih, Nat.mod_mod_of_dvd _ dvd_rfl, ← Nat.add_mod]

theorem cpuValTotal_cons (e : ℕ × ℕ) (kv : List (ℕ × ℕ)) (c : ℕ) :
    cpuValTotal (e :: kv) c = (if e.1 = c then e.2 else 0) + cpuValTotal kv c := by
  unfold cpuValTotal
  by_cases h : e.1 = c <;> simp [List.filter_cons, h]

theorem cpuValTotal_append_singleton (kv : List (ℕ × ℕ)) (cv : ℕ × ℕ) (c : ℕ) :
    cpuValTotal (kv ++ [cv]) c = cpuValTotal kv c + (if cv.1 = c then cv.2 else 0) := by
  unfold cpuValTotal
  rw [List.filter_append, List.map_append, List.sum_append]
  by_cases h : cv.1 = c <;> simp [List.filter_cons, h]

theorem cpuValTotal_le (kv : List (ℕ × ℕ)) (c : ℕ) :
    cpuValTotal kv c ≤ (kv.map (fun e => e.2)).sum := by
  induction kv with
  | nil => simp [cpuValTotal]
  | cons e t ih =>
    rw [cpuValTotal_cons]
    simp only [List.map_cons, List.sum_cons]
    by_cases h : e.1 = c <;> simp [h] <;> omega

theorem sum_range_cpuValTotal (n : ℕ) (kv : List (ℕ × ℕ))
    (hcpu : ∀ e ∈ kv, e.1 < n) :
    ((List.range n).map (fun c => cpuValTotal kv c)).sum = (kv.map (fun e => e.2)).sum := by
  induction kv with
  | nil => simp [cpuValTotal]
  | cons e t ih =>
    have he : e.1 < n := hcpu e (List.mem_cons_self e t)
    have ht : ∀ x ∈ t, x.1 < n := fun x hx => hcpu x (List.mem_cons_of_mem e hx)
    calc ((List.range n).map (fun c => cpuValTotal (e :: t) c)).sum
        = ((List.range n).map (fun c => (if e.1 = c then e.2 else 0) + cpuValTotal t c)).sum := by
          simp only [cpuValTotal_cons]
      _ = ((List.range n).map (fun c => if e.1 = c then e.2 else 0)).sum
            + ((List.range n).map (fun c => cpuValTotal t c)).sum :=
          list_sum_map_add _ _ _
      _ = e.2 + (t.map (fun x => x.2)).sum := by
          rw [sum_range_ite, if_pos he, ih ht]
      _ = ((e :: t).map (fun x => x.2)).sum := by simp

theorem alookup_bumpSlots_self {κ : Type} [DecidableEq κ] (W : ℕ)
    (m : PerCpuMap κ) (k : κ) (cpu v : ℕ) :
    alookup (bumpSlots W m k cpu v) k
      = some (fun c => if c = cpu then (prevSlot m k cpu + v) % W else prevSlot m k c) := by
  unfold bumpSlots prevSlot
  rcases h : alookup m k with _ | slots
  · rw [alookup_ainsert_self]
    congr 1
    funext c
    by_cases hc : c = cpu <;> simp [hc]
  · rw [alookup_ainsert_self]
    congr 1
    funext c
    by_cases hc : c = cpu <;> simp [hc]

theorem bumpFold_append_singleton {κ : Type} [DecidableEq κ] (W : ℕ) (k : κ)
    (l : List (ℕ × ℕ)) (cv : ℕ × ℕ) (m : PerCpuMap κ) :
    bumpFold W k (l ++ [cv]) m = bumpSlots W (bumpFold W k l m) k cv.1 cv.2 := by
  unfold bumpFold
  rw [List.foldl_append]
  rfl

theorem bumpFold_lookup {κ : Type} [DecidableEq κ] (W : ℕ) (k : κ)
    (kv : List (ℕ × ℕ)) (m : PerCpuMap κ)
    (h0 : alookup m k = none) (hne : kv ≠ []) :
    ∃ f, alookup (bumpFold W k kv m) k = some f ∧
      ∀ c, f c = cpuValTotal kv c % W := by
  induction kv using List.reverseRecOn with
  | nil => cases hne rfl
  | append_singleton l cv ih =>
    rw [bumpFold_append_singleton, alookup_bumpSlots_self]
    refine ⟨_, rfl, ?_⟩
    rcases Decidable.em (l = []) with hl | hl
    · subst hl
      intro c
      have hprev : ∀ c, prevSlot (bumpFold W k [] m) k c = 0 := by
        intro c
        unfold prevSlot bumpFold
        simp only [List.foldl_nil]
        rw [h0]
      by_cases hc : c = cv.1
      · simp [hc, hprev, cpuValTotal_cons, cpuValTotal]
      · simp [hc, hprev, cpuValTotal_cons, cpuValTotal, Ne.symm hc]
    · obtain ⟨f, hf, hfc⟩ := ih hl
      have hprev : ∀ c, prevSlot (bumpFold W k l m) k c = f c := by
        intro c
        unfold prevSlot
        rw [hf]
      intro c
      by_cases hc : c = cv.1
      · subst hc
        rw [cpuValTotal_append_singleton]
        simp [hprev, hfc, Nat.mod_add_mod]
      · rw [cpuValTotal_append_singleton]
        simp only [if_neg hc, hprev, hfc]
        rw [if_neg (fun h => hc h.symm)]
        simp

theorem sumAcrossCpus_eq (W n : ℕ) (f : ℕ → ℕ) :
    sumAcrossCpus W n f = ((List.range n).map f).sum % W := by
  induction n with
  | zero => simp [sumAcrossCpus]
  | succ n ih =>
    unfold sumAcrossCpus at ih ⊢
    rw [List.range_succ, List.foldl_append, List.map_append, List.sum_append]
    simp only [List.foldl_cons, List.foldl_nil, List.map_cons, List.sum_cons, List.map_nil,
      List.sum_nil, Nat.add_zero]
    rw [ih, Nat.mod_add_mod]

theorem key_sum_spec {κ : Type} [DecidableEq κ] (W numCpus : ℕ) (k : κ)
    (kv : List (ℕ × ℕ)) (m : PerCpuMap κ)
    (h0 : alookup m k = none) (hne : kv ≠ []) (hcpu : ∀ e ∈ kv, e.1 < numCpus) :
    ∃ f, alookup (bumpFold W k kv m) k = some f ∧
      sumAcrossCpus W numCpus f = (kv.map (fun e => e.2)).sum % W ∧
      ((kv.map (fun e => e.2)).sum < W →
        sumAcrossCpus W numCpus f = (kv.map (fun e => e.2)).sum) := by
  obtain ⟨f, hf, hfc⟩ := bumpFold_lookup W k kv m h0 hne
  refine ⟨f, hf, ?_, ?_⟩
  · rw [sumAcrossCpus_eq]
    have hmap : (List.range numCpus).map f
        = ((List.range numCpus).map (fun c => cpuValTotal kv c)).map (fun x => x % W) := by
      rw [List.map_map]
      exact List.map_congr_left (fun c _ => hfc c)
    rw [hmap, sum_mod_list, sum_range_cpuValTotal _ _ hcpu]
  · intro hlt
    rw [sumAcrossCpus_eq]
    have hEach : ∀ c ∈ List.range numCpus, f c = cpuValTotal kv c := by
      intro c _
      rw [hfc c, Nat.mod_eq_of_lt (lt_of_le_of_lt (cpuValTotal_le kv c) hlt)]
    rw [List.map_congr_left hEach, sum_range_cpuValTotal _ _ hcpu, Nat.mod_eq_of_lt hlt]

theorem xdp_allOk_state (s : XdpState) (p : Packet) (hlen : ETH_HDR_SIZE ≤ p.len) :
    (xdp_tsndt allOk s p).1 =
      { INTERFACE_RX_PACKET_COUNTERS :=
          bumpSlots U32 s.INTERFACE_RX_PACKET_COUNTERS p.ifindex p.cpu 1,
        INTERFACE_RX_BYTE_COUNTERS :=
          bumpSlots U64 s.INTERFACE_RX_BYTE_COUNTERS p.ifindex p.cpu p.len,
        SRC_MAC_RX_PACKET_COUNTERS :=
          bumpSlots U32 s.SRC_MAC_RX_PACKET_COUNTERS p.srcMac p.cpu 1,
        SRC_MAC_RX_BYTE_COUNTERS :=
          bumpSlots U64 s.SRC_MAC_RX_BYTE_COUNTERS p.srcMac p.cpu p.len } := by
  have hbnd : ptr_at p.len 0 ETH_HDR_SIZE = Except.ok 0 := by
    unfold ptr_at
    rw [if_neg (by omega)]
  unfold xdp_tsndt try_xdp_tsndt
  simp only [allOk, updateCounter_true, hbnd]

theorem processPkts_eq_bumpFolds (k : ℕ) (mk : Mac) (ps : List Packet) (s0 : XdpState)
    (hifx : ∀ p ∈ ps, p.ifindex = k) (hmac : ∀ p ∈ ps, p.srcMac = mk)
    (hlen : ∀ p ∈ ps, ETH_HDR_SIZE ≤ p.len) :
    processPkts allOk s0 ps =
      { INTERFACE_RX_PACKET_COUNTERS :=
          bumpFold U32 k (ps.map (fun p => (p.cpu, 1))) s0.INTERFACE_RX_PACKET_COUNTERS,
        INTERFACE_RX_BYTE_COUNTERS :=
          bumpFold U64 k (ps.map (fun p => (p.cpu, p.len))) s0.INTERFACE_RX_BYTE_COUNTERS,
        SRC_MAC_RX_PACKET_COUNTERS :=
          bumpFold U32 mk (ps.map (fun p => (p.cpu, 1))) s0.SRC_MAC_RX_PACKET_COUNTERS,
        SRC_MAC_RX_BYTE_COUNTERS :=
          bumpFold U64 mk (ps.map (fun p => (p.cpu, p.len))) s0.SRC_MAC_RX_BYTE_COUNTERS } := by
  induction ps generalizing s0 with
  | nil =>
    simp only [processPkts, List.foldl_nil, List.map_nil]
    unfold bumpFold
    simp only [List.foldl_nil]
  | cons p ps ih =>
    have hpif : p.ifindex = k := hifx p (List.mem_cons_self p ps)
    have hpmac : p.srcMac = mk := hmac p (List.mem_cons_self p ps)
    have hplen : ETH_HDR_SIZE ≤ p.len := hlen p (List.mem_cons_self p ps)
    have hstep : processPkts allOk s0 (p :: ps)
        = processPkts allOk ((xdp_tsndt allOk s0 p).1) ps := by
      unfold processPkts
      rw [List.foldl_cons]
    rw [hstep, ih ((xdp_tsndt allOk s0 p).1)
      (fun q hq => hifx q (List.mem_cons_of_mem p hq))
      (fun q hq => hmac q (List.mem_cons_of_mem p hq))
      (fun q hq => hlen q (List.mem_cons_of_mem p hq)),
      xdp_allOk_state s0 p hplen]
    simp only [List.map_cons]
    unfold bumpFold
    simp only [List.foldl_cons]
    rw [hpif, hpmac]

theorem sum_map_one {α : Type} (l : List α) : (l.map (fun _ => 1)).sum = l.length := by
  induction l with
  | nil => simp
  | cons a t ih => simp [ih]; omega

theorem kv_pkt_sum (ps : List Packet) :
    (((ps.map (fun p => (p.cpu, 1))).map (fun e => e.2)).sum) = ps.length := by
  rw [List.map_map]
  exact sum_map_one ps

theorem kv_byte_sum (ps : List Packet) :
    (((ps.map (fun p => (p.cpu, p.len))).map (fun e => e.2)).sum) = (ps.map Packet.len).sum := by
  rw [List.map_map]
  rfl

/-- C2 (amended): starting from tables with the key absent (creation), a
sequence of successfully counted packets for one interface index and one
source MAC leaves, in each of the four tables, a per-CPU entry whose
wrapping cross-CPU sum is the exact packet count modulo `2 ^ 32`
(resp. the exact byte total modulo `2 ^ 64`), with on-the-nose equality
whenever the exact value is below the modulus. -/
theorem c2_sums_exact_mod_word (numCpus k : ℕ) (mk : Mac) (ps : List Packet) (s0 : XdpState)
    (hifx : ∀ p ∈ ps, p.ifindex = k) (hmac : ∀ p ∈ ps, p.srcMac = mk)
    (hlen14 : ∀ p ∈ ps, ETH_HDR_SIZE ≤ p.len) (hcpu : ∀ p ∈ ps, p.cpu < numCpus)
    (hne : ps ≠ [])
    (h1 : alookup s0.INTERFACE_RX_PACKET_COUNTERS k = none)
    (h2 : alookup s0.INTERFACE_RX_BYTE_COUNTERS k = none)
    (h3 : alookup s0.SRC_MAC_RX_PACKET_COUNTERS mk = none)
    (h4 : alookup s0.SRC_MAC_RX_BYTE_COUNTERS mk = none) :
    ∃ f g fm gm,
      alookup (processPkts allOk s0 ps).INTERFACE_RX_PACKET_COUNTERS k = some f ∧
      alookup (processPkts allOk s0 ps).INTERFACE_RX_BYTE_COUNTERS k = some g ∧
      alookup (processPkts allOk s0 ps).SRC_MAC_RX_PACKET_COUNTERS mk = some fm ∧
      alookup (processPkts allOk s0 ps).SRC_MAC_RX_BYTE_COUNTERS mk = some gm ∧
      sumAcrossCpus U32 numCpus f = ps.length % U32 ∧
      sumAcrossCpus U64 numCpus g = (ps.map Packet.len).sum % U64 ∧
      sumAcrossCpus U32 numCpus fm = ps.length % U32 ∧
      sumAcrossCpus U64 numCpus gm = (ps.map Packet.len).sum % U64 ∧
      (ps.length < U32 →
        sumAcrossCpus U32 numCpus f = ps.length ∧ sumAcrossCpus U32 numCpus fm = ps.length) ∧
      ((ps.map Packet.len).sum < U64 →
        sumAcrossCpus U64 numCpus g = (ps.map Packet.len).sum ∧
          sumAcrossCpus U64 numCpus gm = (ps.map Packet.len).sum) := by
  have hkvp : (ps.map (fun p => (p.cpu, 1))) ≠ [] := by
    simpa [List.map_eq_nil_iff] using hne
  have hkvb : (ps.map (fun p => (p.cpu, p.len))) ≠ [] := by
    simpa [List.map_eq_nil_iff] using hne
  have hcp : ∀ e ∈ ps.map (fun p => (p.cpu, (1 : ℕ))), e.1 < numCpus := by
    intro e he
    obtain ⟨p, hp, rfl⟩ := List.mem_map.1 he
    exact hcpu p hp
  have hcb : ∀ e ∈ ps.map (fun p => (p.cpu, p.len)), e.1 < numCpus := by
    intro e he
    obtain ⟨p, hp, rfl⟩ := List.mem_map.1 he
    exact hcpu p hp
  rw [processPkts_eq_bumpFolds k mk ps s0 hifx hmac hlen14]
  obtain ⟨f, hfl, hfs, hfe⟩ :=
    key_sum_spec U32 numCpus k (ps.map (fun p => (p.cpu, 1))) s0.INTERFACE_RX_PACKET_COUNTERS h1 hkvp hcp
  obtain ⟨g, hgl, hgs, hge⟩ :=
    key_sum_spec U64 numCpus k (ps.map (fun p => (p.cpu, p.len))) s0.INTERFACE_RX_BYTE_COUNTERS h2 hkvb hcb
  obtain ⟨fm, hml, hms, hme⟩ :=
    key_sum_spec U32 numCpus mk (ps.map (fun p => (p.cpu, 1))) s0.SRC_MAC_RX_PACKET_COUNTERS h3 hkvp hcp
  obtain ⟨gm, hnl, hns, hnee⟩ :=
    key_sum_spec U64 numCpus mk (ps.map (fun p => (p.cpu, p.len))) s0.SRC_MAC_RX_BYTE_COUNTERS h4 hkvb hcb
  rw [kv_pkt_sum] at hfs hfe hms hme
  rw [kv_byte_sum] at hgs hge hns hnee
  exact ⟨f, g, fm, gm, hfl, hgl, hml, hnl, hfs, hgs, hms, hns,
    fun hlt => ⟨hfe hlt, hme hlt⟩, fun hlt => ⟨hge hlt, hnee hlt⟩⟩

/-- C2 counterexample: after exactly `2 ^ 32` packets to interface 7 on
CPU 0, the cross-CPU sum of the interface packet counter reads 0, not the
exact packet count `2 ^ 32`: the 32-bit cumulative counter has wrapped. -/
theorem c2_counterexample :
    ∃ f, alookup (processPkts allOk ⟨[], [], [], []⟩
          (List.replicate U32 ⟨7, 14, (0, 0, 0, 0, 0, 0), 0⟩)).INTERFACE_RX_PACKET_COUNTERS 7
        = some f ∧
      sumAcrossCpus U32 1 f = 0 ∧
      (List.replicate U32 (⟨7, 14, (0, 0, 0, 0, 0, 0), 0⟩ : Packet)).length = U32 ∧
      (0 : ℕ) ≠ U32 := by
  have hmem : ∀ p ∈ List.replicate U32 (⟨7, 14, (0, 0, 0, 0, 0, 0), 0⟩ : Packet),
      p = (⟨7, 14, (0, 0, 0, 0, 0, 0), 0⟩ : Packet) := fun p hp => List.eq_of_mem_replicate hp
  have hne : List.replicate U32 (⟨7, 14, (0, 0, 0, 0, 0, 0), 0⟩ : Packet) ≠ [] := by
    intro h
    have := congrArg List.length h
    simp only [List.length_replicate, List.length_nil] at this
    exact absurd this (by decide)
  obtain ⟨f, g, fm, gm, hfl, hgl, hml, hnl, hfs, hgs, hms, hns, hfe, hge⟩ :=
    c2_sums_exact_mod_word 1 7 (0, 0, 0, 0, 0, 0)
      (List.replicate U32 ⟨7, 14, (0, 0, 0, 0, 0, 0), 0⟩) ⟨[], [], [], []⟩
      (fun p hp => by rw [hmem p hp])
      (fun p hp => by rw [hmem p hp])
      (fun p hp => by rw [hmem p hp]; decide)
      (fun p hp => by rw [hmem p hp]; decide)
      hne rfl rfl rfl rfl
  refine ⟨f, hfl, ?_, List.length_replicate _ _, by decide⟩
  rw [hfs, List.length_replicate, Nat.mod_self]

/-- C2 witness: two packets (14 and 20 bytes) for interface 3 and MAC
01:02:03:04:05:06, on CPUs 0 and 1 of a 2-CPU machine. -/
theorem c2_witness :
    ((∀ p ∈ ([⟨3, 14, (1, 2, 3, 4, 5, 6), 0⟩, ⟨3, 20, (1, 2, 3, 4, 5, 6), 1⟩] : List Packet),
        p.ifindex = 3) ∧
      (∀ p ∈ ([⟨3, 14, (1, 2, 3, 4, 5, 6), 0⟩, ⟨3, 20, (1, 2, 3, 4, 5, 6), 1⟩] : List Packet),
        p.srcMac = (1, 2, 3, 4, 5, 6)) ∧
      (∀ p ∈ ([⟨3, 14, (1, 2, 3, 4, 5, 6), 0⟩, ⟨3, 20, (1, 2, 3, 4, 5, 6), 1⟩] : List Packet),
        ETH_HDR_SIZE ≤ p.len) ∧
      (∀ p ∈ ([⟨3, 14, (1, 2, 3, 4, 5, 6), 0⟩, ⟨3, 20, (1, 2, 3, 4, 5, 6), 1⟩] : List Packet),
        p.cpu < 2)) ∧
    (∃ f g fm gm,
      alookup (processPkts allOk ⟨[], [], [], []⟩
          ([⟨3, 14, (1, 2, 3, 4, 5, 6), 0⟩,
            ⟨3, 20, (1, 2, 3, 4, 5, 6), 1⟩] : List Packet)).INTERFACE_RX_PACKET_COUNTERS 3
        = some f ∧
      alookup (processPkts allOk ⟨[], [], [], []⟩
          ([⟨3, 14, (1, 2, 3, 4, 5, 6), 0⟩,
            ⟨3, 20, (1, 2, 3, 4, 5, 6), 1⟩] : List Packet)).INTERFACE_RX_BYTE_COUNTERS 3
        = some g ∧
      alookup (processPkts allOk ⟨[], [], [], []⟩
          ([⟨3, 14, (1, 2, 3, 4, 5, 6), 0⟩,
            ⟨3, 20, (1, 2, 3, 4, 5, 6), 1⟩] : List Packet)).SRC_MAC_RX_PACKET_COUNTERS
          (1, 2, 3, 4, 5, 6)
        = some fm ∧
      alookup (processPkts allOk ⟨[], [], [], []⟩
          ([⟨3, 14, (1, 2, 3, 4, 5, 6), 0⟩,
            ⟨3, 20, (1, 2, 3, 4, 5, 6), 1⟩] : List Packet)).SRC_MAC_RX_BYTE_COUNTERS
          (1, 2, 3, 4, 5, 6)
        = some gm ∧
      sumAcrossCpus U32 2 f
        = ([⟨3, 14, (1, 2, 3, 4, 5, 6), 0⟩,
            ⟨3, 20, (1, 2, 3, 4, 5, 6), 1⟩] : List Packet).length % U32 ∧
      sumAcrossCpus U64 2 g
        = (([⟨3, 14, (1, 2, 3, 4, 5, 6), 0⟩,
            ⟨3, 20, (1, 2, 3, 4, 5, 6), 1⟩] : List Packet).map Packet.len).sum % U64 ∧
      sumAcrossCpus U32 2 fm
        = ([⟨3, 14, (1, 2, 3, 4, 5, 6), 0⟩,
            ⟨3, 20, (1, 2, 3, 4, 5, 6), 1⟩] : List Packet).length % U32 ∧
      sumAcrossCpus U64 2 gm
        = (([⟨3, 14, (1, 2, 3, 4, 5, 6), 0⟩,
            ⟨3, 20, (1, 2, 3, 4, 5, 6), 1⟩] : List Packet).map Packet.len).sum % U64 ∧
      (([⟨3, 14, (1, 2, 3, 4, 5, 6), 0⟩,
            ⟨3, 20, (1, 2, 3, 4, 5, 6), 1⟩] : List Packet).length < U32 →
        sumAcrossCpus U32 2 f
            = ([⟨3, 14, (1, 2, 3, 4, 5, 6), 0⟩,
                ⟨3, 20, (1, 2, 3, 4, 5, 6), 1⟩] : List Packet).length ∧
          sumAcrossCpus U32 2 fm
            = ([⟨3, 14, (1, 2, 3, 4, 5, 6), 0⟩,
                ⟨3, 20, (1, 2, 3, 4, 5, 6), 1⟩] : List Packet).length) ∧
      ((([⟨3, 14, (1, 2, 3, 4, 5, 6), 0⟩,
            ⟨3, 20, (1, 2, 3, 4, 5, 6), 1⟩] : List Packet).map Packet.len).sum < U64 →
        sumAcrossCpus U64 2 g
            = (([⟨3, 14, (1, 2, 3, 4, 5, 6), 0⟩,
                ⟨3, 20, (1, 2, 3, 4, 5, 6), 1⟩] : List Packet).map Packet.len).sum ∧
          sumAcrossCpus U64 2 gm
            = (([⟨3, 14, (1, 2, 3, 4, 5, 6), 0⟩,
                ⟨3, 20, (1, 2, 3, 4, 5, 6), 1⟩] : List Packet).map Packet.len).sum)) :=
  ⟨⟨by decide, by decide, by decide, by decide⟩,
    c2_sums_exact_mod_word 2 3 (1, 2, 3, 4, 5, 6)
      [⟨3, 14, (1, 2, 3, 4, 5, 6), 0⟩, ⟨3, 20, (1, 2, 3, 4, 5, 6), 1⟩] ⟨[], [], [], []⟩
      (by decide) (by decide) (by decide) (by decide)
      (List.cons_ne_nil _ _) rfl rfl rfl rfl⟩

theorem alookup_aremove_none {κ α : Type} [DecidableEq κ] {l : List (κ × α)} {k : κ}
    (h : alookup l k = none) (k' : κ) : alookup (aremove l k') k = none := by
  by_cases hk : k = k'
  · subst hk
    exact alookup_aremove_self l k
  · rw [alookup_aremove_ne l k' k hk]
    exact h

theorem ethRemoveLocal_removes (m : EthModel) (mac : Mac) :
    alookup (ethRemoveLocal m mac).last_active_tick mac = none ∧
    alookup (ethRemoveLocal m mac).cumul_packet_counts mac = none ∧
    alookup (ethRemoveLocal m mac).cumul_byte_counts mac = none ∧
    alookup (ethRemoveLocal m mac).tick_packet_count_data mac = none ∧
    alookup (ethRemoveLocal m mac).tick_byte_count_data mac = none := by
  unfold ethRemoveLocal
  exact ⟨alookup_aremove_self _ _, alookup_aremove_self _ _, alookup_aremove_self _ _,
    alookup_aremove_self _ _, alookup_aremove_self _ _⟩

theorem ethRemoveLocal_preserves_none {m : EthModel} {mac : Mac}
    (h : alookup m.last_active_tick mac = none ∧
      alookup m.cumul_packet_counts mac = none ∧
      alookup m.cumul_byte_counts mac = none ∧
      alookup m.tick_packet_count_data mac = none ∧
      alookup m.tick_byte_count_data mac = none) (x : Mac) :
    alookup (ethRemoveLocal m x).last_active_tick mac = none ∧
    alookup (ethRemoveLocal m x).cumul_packet_counts mac = none ∧
    alookup (ethRemoveLocal m x).cumul_byte_counts mac = none ∧
    alookup (ethRemoveLocal m x).tick_packet_count_data mac = none ∧
    alookup (ethRemoveLocal m x).tick_byte_count_data mac = none := by
  unfold ethRemoveLocal
  exact ⟨alookup_aremove_none h.1 x, alookup_aremove_none h.2.1 x,
    alookup_aremove_none h.2.2.1 x, alookup_aremove_none h.2.2.2.1 x,
    alookup_aremove_none h.2.2.2.2 x⟩

theorem kremove_ok_lookup {κ : Type} [DecidableEq κ] {t t' : PerCpuMap κ} {k : κ}
    (h : kremove t k = .ok t') (k' : κ) :
    alookup t' k' = if k' = k then none else alookup t k' := by
  unfold kremove at h
  by_cases hs : (alookup t k).isSome
  · rw [if_pos hs] at h
    cases h
    by_cases hk : k' = k
    · subst hk
      simp [alookup_aremove_self]
    · simp [hk, alookup_aremove_ne t k k' hk]
  · rw [if_neg hs] at h
    cases h

theorem ethEvictLoop_preserves_evicted (macs : List Mac)
    (st : EthModel × PerCpuMap Mac × PerCpuMap Mac) (mac : Mac)
    (h : evictedState st mac) : evictedState (ethEvictLoop macs st).1 mac := by
  induction macs generalizing st with
  | nil => exact h
  | cons x rest ih =>
    obtain ⟨h1, h2, h3, h4, h5, h6, h7⟩ := h
    have hl := ethRemoveLocal_preserves_none ⟨h1, h2, h3, h4, h5⟩ x
    unfold ethEvictLoop
    rcases hk1 : kremove st.2.1 x with _ | kp'
    · exact ⟨hl.1, hl.2.1, hl.2.2.1, hl.2.2.2.1, hl.2.2.2.2, h6, h7⟩
    · have hkp : alookup kp' mac = none := by
        rw [kremove_ok_lookup hk1 mac]
        by_cases hm : mac = x <;> simp [hm, h6]
      rcases hk2 : kremove st.2.2 x with _ | kb'
      · exact ⟨hl.1, hl.2.1, hl.2.2.1, hl.2.2.2.1, hl.2.2.2.2, hkp, h7⟩
      · have hkb : alookup kb' mac = none := by
          rw [kremove_ok_lookup hk2 mac]
          by_cases hm : mac = x <;> simp [hm, h7]
        exact ih (ethRemoveLocal st.1 x, kp', kb')
          ⟨hl.1, hl.2.1, hl.2.2.1, hl.2.2.2.1, hl.2.2.2.2, hkp, hkb⟩

theorem ethEvictLoop_true_removes (macs : List Mac)
    (st : EthModel × PerCpuMap Mac × PerCpuMap Mac)
    (hok : (ethEvictLoop macs st).2 = true) (mac : Mac) (hm : mac ∈ macs) :
    evictedState (ethEvictLoop macs st).1 mac := by
  induction macs generalizing st with
  | nil => cases hm
  | cons x rest ih =>
    unfold ethEvictLoop at hok ⊢
    rcases hk1 : kremove st.2.1 x with _ | kp'
    · rw [hk1] at hok
      simp at hok
    · rw [hk1] at hok
      rcases hk2 : kremove st.2.2 x with _ | kb'
      · rw [hk2] at hok
        simp at hok
      · rw [hk2] at hok
        rcases List.mem_cons.1 hm with hx | hrest
        · subst hx
          have hloc := ethRemoveLocal_removes st.1 mac
          have hkp : alookup kp' mac = none := by
            rw [kremove_ok_lookup hk1 mac]
            simp
          have hkb : alookup kb' mac = none := by
            rw [kremove_ok_lookup hk2 mac]
            simp
          exact ethEvictLoop_preserves_evicted rest (ethRemoveLocal st.1 mac, kp', kb') mac
            ⟨hloc.1, hloc.2.1, hloc.2.2.1, hloc.2.2.2.1, hloc.2.2.2.2, hkp, hkb⟩
        · exact ih (ethRemoveLocal st.1 x, kp', kb') hok hrest

theorem mem_ethCollectToRemove {m : EthModel} {mac : Mac} {v : ℤ}
    (hl : alookup m.last_active_tick mac = some v)
    (hv : m.tick_count - IDLE_MAC_ADDR_TIMEOUT_NUM_TICKS ≥ v) :
    mac ∈ ethCollectToRemove m := by
  unfold ethCollectToRemove
  have hmem : (mac, v) ∈ m.last_active_tick := alookup_mem hl
  refine List.mem_map.2 ⟨(mac, v), ?_, rfl⟩
  exact List.mem_filter.2 ⟨hmem, by simpa using hv⟩

theorem pushTickPoint_nil (ws : ℤ) (pt : ℤ × ℤ) : pushTickPoint ws [] pt = [pt] := by
  unfold pushTickPoint
  by_cases h : ((List.length ([] : List (ℤ × ℤ)) : ℤ) > ws) <;> simp [h]

theorem sumAcrossCpus_lt (W n : ℕ) (hW : 1 < W) (f : ℕ → ℕ) : sumAcrossCpus W n f < W := by
  rcases n with _ | n
  · simpa [sumAcrossCpus] using Nat.lt_of_lt_of_le Nat.one_pos (Nat.le_of_lt hW)
  · unfold sumAcrossCpus
    rw [List.range_succ, List.foldl_append]
    simp only [List.foldl_cons, List.foldl_nil]
    exact Nat.mod_lt _ (Nat.lt_of_lt_of_le Nat.zero_lt_one (Nat.le_of_lt hW))

theorem ethPPE_fresh_series (numCpus : ℕ) (m : EthModel) (mac : Mac) (slots : ℕ → ℕ)
    (h0 : alookup m.last_active_tick mac = none) :
    alookup (ethProcessPacketEntry numCpus m mac slots).tick_packet_count_data mac
      = some [(m.tick_count, (sumAcrossCpus U32 numCpus slots : ℤ))] := by
  have hws : wrapSub U32 (sumAcrossCpus U32 numCpus slots) 0
      = sumAcrossCpus U32 numCpus slots := by
    unfold wrapSub
    have hlt : sumAcrossCpus U32 numCpus slots < U32 :=
      sumAcrossCpus_lt U32 numCpus (by norm_num [U32]) slots
    rw [Nat.mod_eq_of_lt hlt, Nat.zero_mod, Nat.sub_zero, Nat.add_mod_left,
      Nat.mod_eq_of_lt hlt]
  have hreg : ethRegister m mac =
      { m with
        src_macs := m.src_macs ++ [mac],
        cumul_byte_counts := ainsert m.cumul_byte_counts mac 0,
        cumul_packet_counts := ainsert m.cumul_packet_counts mac 0,
        tick_byte_count_data := ainsert m.tick_byte_count_data mac [],
        tick_packet_count_data := ainsert m.tick_packet_count_data mac [] } := by
    unfold ethRegister
    rw [if_neg (by simp [h0])]
  unfold ethProcessPacketEntry
  rw [hreg]
  simp only [alookup_ainsert_self, Option.getD_some, pushTickPoint_nil, hws]
  split
  · exact alookup_ainsert_self _ _ _
  · exact alookup_ainsert_self _ _ _

theorem ethPPE_last_unchanged (numCpus : ℕ) (m : EthModel) (mac : Mac) (slots : ℕ → ℕ)
    (hng : ¬ sumAcrossCpus U32 numCpus slots > ethPrevPacketVal m mac) :
    (ethProcessPacketEntry numCpus m mac slots).last_active_tick = m.last_active_tick := by
  unfold ethPrevPacketVal at hng
  by_cases hs : (alookup m.last_active_tick mac).isSome = true
  · rw [if_pos hs] at hng
    have hreg : ethRegister m mac = m := by
      unfold ethRegister
      rw [if_pos hs]
    unfold ethProcessPacketEntry
    rw [hreg, if_neg hng]
  · rw [if_neg hs] at hng
    have h0 : alookup m.last_active_tick mac = none := by
      rcases h : alookup m.last_active_tick mac with _ | w
      · rfl
      · rw [h] at hs
        simp at hs
    have hreg : ethRegister m mac =
        { m with
          src_macs := m.src_macs ++ [mac],
          cumul_byte_counts := ainsert m.cumul_byte_counts mac 0,
          cumul_packet_counts := ainsert m.cumul_packet_counts mac 0,
          tick_byte_count_data := ainsert m.tick_byte_count_data mac [],
          tick_packet_count_data := ainsert m.tick_packet_count_data mac [] } := by
      unfold ethRegister
      rw [if_neg (by simp [h0])]
    unfold ethProcessPacketEntry
    rw [hreg]
    rw [if_neg (by simpa [alookup_ainsert_self] using hng)]

theorem ethPPE_last_set_now (numCpus : ℕ) (m : EthModel) (mac : Mac) (slots : ℕ → ℕ)
    (hg : sumAcrossCpus U32 numCpus slots > ethPrevPacketVal m mac) :
    alookup (ethProcessPacketEntry numCpus m mac slots).last_active_tick mac
      = some m.tick_count := by
  unfold ethPrevPacketVal at hg
  by_cases hs : (alookup m.last_active_tick mac).isSome = true
  · rw [if_pos hs] at hg
    have hreg : ethRegister m mac = m := by
      unfold ethRegister
      rw [if_pos hs]
    unfold ethProcessPacketEntry
    rw [hreg, if_pos hg]
    exact alookup_ainsert_self _ _ _
  · rw [if_neg hs] at hg
    have h0 : alookup m.last_active_tick mac = none := by
      rcases h : alookup m.last_active_tick mac with _ | w
      · rfl
      · rw [h] at hs
        simp at hs
    have hreg : ethRegister m mac =
        { m with
          src_macs := m.src_macs ++ [mac],
          cumul_byte_counts := ainsert m.cumul_byte_counts mac 0,
          cumul_packet_counts := ainsert m.cumul_packet_counts mac 0,
          tick_byte_count_data := ainsert m.tick_byte_count_data mac [],
          tick_packet_count_data := ainsert m.tick_packet_count_data mac [] } := by
      unfold ethRegister
      rw [if_neg (by simp [h0])]
    unfold ethProcessPacketEntry
    rw [hreg]
    rw [if_pos (by simpa [alookup_ainsert_self] using hg)]
    exact alookup_ainsert_self _ _ _

theorem ethOnTick_evicts_idle (numCpus : ℕ) (kp kb : PerCpuMap Mac) (m : EthModel) (mac : Mac) (v : ℤ)
    (hl : alookup (ethPhaseCounters numCpus kp kb m).last_active_tick mac = some v)
    (hv : (ethPhaseCounters numCpus kp kb m).tick_count - v
        > IDLE_MAC_ADDR_TIMEOUT_NUM_TICKS)
    (hok : (ethOnTick numCpus kp kb m).2 = true) :
    evictedState (ethOnTick numCpus kp kb m).1 mac := by
  have hv' : (ethPhaseCounters numCpus kp kb m).tick_count
      - IDLE_MAC_ADDR_TIMEOUT_NUM_TICKS ≥ v := by omega
  have hmem := mem_ethCollectToRemove hl hv'
  simp only [ethOnTick] at hok ⊢
  rcases hres : ethEvictLoop (ethCollectToRemove (ethPhaseCounters numCpus kp kb m))
      (ethPhaseCounters numCpus kp kb m, kp, kb) with ⟨st, ok⟩
  rcases ok with _ | _
  · rw [hres] at hok
    simp at hok
  · have hev := ethEvictLoop_true_removes
      (ethCollectToRemove (ethPhaseCounters numCpus kp kb m))
      (ethPhaseCounters numCpus kp kb m, kp, kb) (by rw [hres]) mac hmem
    rw [hres] at hev
    obtain ⟨e1, e2, e3, e4, e5, e6, e7⟩ := hev
    by_cases hw : st.1.tick_count > st.1.window_size <;>
      simp [evictedState, hw, e1, e2, e3, e4, e5, e6, e7]

theorem pushTickPoint_facts (ws : ℤ) (l : List (ℤ × ℤ)) (pt : ℤ × ℤ) (hws : 0 ≤ ws) :
    ((l.length : ℤ) ≤ ws + 1 → ((pushTickPoint ws l pt).length : ℤ) ≤ ws + 1) ∧
    List.IsSuffix (pushTickPoint ws l pt).dropLast l ∧
    (pushTickPoint ws l pt).getLast? = some pt ∧
    ((l.length : ℤ) > ws → (pushTickPoint ws l pt).dropLast = l.drop 1) := by
  unfold pushTickPoint
  by_cases h : (l.length : ℤ) > ws
  · rw [if_pos h]
    refine ⟨?_, ?_, ?_, fun _ => ?_⟩
    · intro hlen
      have hd : (l.drop 1).length = l.length - 1 := by simp
      simp only [List.length_append, List.length_cons, List.length_nil, hd]
      omega
    · rw [List.dropLast_concat]
      exact ⟨l.take 1, by rw [List.take_append_drop]⟩
    · exact List.getLast?_concat _
    · exact List.dropLast_concat
  · rw [if_neg h]
    refine ⟨?_, ?_, ?_, fun hc => absurd hc h⟩
    · intro _
      simp only [List.length_append, List.length_cons, List.length_nil]
      omega
    · rw [List.dropLast_concat]
    · exact List.getLast?_concat _

theorem ethRegister_last (m : EthModel) (mac : Mac) :
    (ethRegister m mac).last_active_tick = m.last_active_tick := by
  unfold ethRegister
  split <;> rfl

theorem ethRegister_ws (m : EthModel) (mac : Mac) :
    (ethRegister m mac).window_size = m.window_size := by
  unfold ethRegister
  split <;> rfl

theorem ethRegister_seriesLenOk {n : ℕ} {m : EthModel} (hb : seriesLenOk n m) (mac : Mac) :
    seriesLenOk n (ethRegister m mac) := by
  unfold ethRegister
  split
  · exact hb
  · constructor
    · intro mac' l hl
      by_cases hm : mac' = mac
      · subst hm
        rw [alookup_ainsert_self] at hl
        cases hl
        simp
      · rw [alookup_ainsert_ne _ _ _ _ hm] at hl
        exact hb.1 mac' l hl
    · intro mac' l hl
      by_cases hm : mac' = mac
      · subst hm
        rw [alookup_ainsert_self] at hl
        cases hl
        simp
      · rw [alookup_ainsert_ne _ _ _ _ hm] at hl
        exact hb.2 mac' l hl

theorem ethPPE_fields (numCpus : ℕ) (m : EthModel) (mac : Mac) (slots : ℕ → ℕ) :
    (ethProcessPacketEntry numCpus m mac slots).tick_packet_count_data
        = ainsert (ethRegister m mac).tick_packet_count_data mac
          (pushTickPoint m.window_size
            ((alookup (ethRegister m mac).tick_packet_count_data mac).getD [])
            (m.tick_count,
              (wrapSub U32 (sumAcrossCpus U32 numCpus slots)
                ((alookup (ethRegister m mac).cumul_packet_counts mac).getD 0) : ℕ))) ∧
    (ethProcessPacketEntry numCpus m mac slots).tick_byte_count_data
        = (ethRegister m mac).tick_byte_count_data ∧
    (ethProcessPacketEntry numCpus m mac slots).window_size = m.window_size ∧
    (ethProcessPacketEntry numCpus m mac slots).tick_count = m.tick_count := by
  have hws : (ethRegister m mac).window_size = m.window_size := ethRegister_ws m mac
  have htc : (ethRegister m mac).tick_count = m.tick_count := by
    unfold ethRegister
    split <;> rfl
  simp only [ethProcessPacketEntry]
  split <;> exact ⟨by rw [hws, htc], rfl, by rw [hws], by rw [htc]⟩

theorem ethPBE_fields (numCpus : ℕ) (m : EthModel) (mac : Mac) (slots : ℕ → ℕ) :
    (ethProcessByteEntry numCpus m mac slots).tick_byte_count_data
        = ainsert m.tick_byte_count_data mac
          (pushTickPoint m.window_size ((alookup m.tick_byte_count_data mac).getD [])
            (m.tick_count,
              (wrapSub U64 (sumAcrossCpus U64 numCpus slots)
                ((alookup m.cumul_byte_counts mac).getD 0) : ℕ))) ∧
    (ethProcessByteEntry numCpus m mac slots).tick_packet_count_data
        = m.tick_packet_count_data ∧
    (ethProcessByteEntry numCpus m mac slots).window_size = m.window_size ∧
    (ethProcessByteEntry numCpus m mac slots).tick_count = m.tick_count := by
  unfold ethProcessByteEntry
  exact ⟨rfl, rfl, rfl, rfl⟩

theorem alookup_ainsert_cases {κ α : Type} [DecidableEq κ] {t : List (κ × α)} {k k' : κ}
    {v w : α} (h : alookup (ainsert t k v) k' = some w) :
    (k' = k ∧ w = v) ∨ alookup t k' = some w := by
  by_cases hk : k' = k
  · subst hk
    rw [alookup_ainsert_self] at h
    cases h
    exact Or.inl ⟨rfl, rfl⟩
  · rw [alookup_ainsert_ne _ _ _ _ hk] at h
    exact Or.inr h

theorem pushTickPoint_len_le {ws : ℤ} {l : List (ℤ × ℤ)} (pt : ℤ × ℤ) (hws : 0 ≤ ws)
    (hl : (l.length : ℤ) ≤ ws + 1) :
    ((pushTickPoint ws l pt).length : ℤ) ≤ ws + 1 :=
  (pushTickPoint_facts ws l pt hws).1 hl

theorem ethPPE_seriesLenOk {numCpus : ℕ} {m : EthModel} {mac : Mac} {slots : ℕ → ℕ}
    (hws : m.window_size = 50) (hb : seriesLenOk 51 m) :
    seriesLenOk 51 (ethProcessPacketEntry numCpus m mac slots) := by
  obtain ⟨hp, hbyte, hw, ht⟩ := ethPPE_fields numCpus m mac slots
  have hreg := ethRegister_seriesLenOk hb mac
  constructor
  · intro mac' l hl
    rw [hp] at hl
    rcases alookup_ainsert_cases hl with ⟨_, rfl⟩ | hold
    · have hprevlen : (((alookup (ethRegister m mac).tick_packet_count_data mac).getD []).length : ℤ)
          ≤ 50 + 1 := by
        rcases hx : alookup (ethRegister m mac).tick_packet_count_data mac with _ | lx
        · simp
        · simpa using (by exact_mod_cast hreg.1 mac lx hx : ((lx.length : ℤ) ≤ 51))
      have := pushTickPoint_len_le
        (m.tick_count,
          (wrapSub U32 (sumAcrossCpus U32 numCpus slots)
            ((alookup (ethRegister m mac).cumul_packet_counts mac).getD 0) : ℕ))
        (by norm_num : (0 : ℤ) ≤ 50) hprevlen
      rw [hws]
      exact_mod_cast this
    · exact hreg.1 mac' l hold
  · intro mac' l hl
    rw [hbyte] at hl
    exact hreg.2 mac' l hl

theorem ethPBE_seriesLenOk {numCpus : ℕ} {m : EthModel} {mac : Mac} {slots : ℕ → ℕ}
    (hws : m.window_size = 50) (hb : seriesLenOk 51 m) :
    seriesLenOk 51 (ethProcessByteEntry numCpus m mac slots) := by
  obtain ⟨hbyte, hp, hw, ht⟩ := ethPBE_fields numCpus m mac slots
  constructor
  · intro mac' l hl
    rw [hp] at hl
    exact hb.1 mac' l hl
  · intro mac' l hl
    rw [hbyte] at hl
    rcases alookup_ainsert_cases hl with ⟨_, rfl⟩ | hold
    · have hprevlen : (((alookup m.tick_byte_count_data mac).getD []).length : ℤ) ≤ 50 + 1 := by
        rcases hx : alookup m.tick_byte_count_data mac with _ | lx
        · simp
        · simpa using (by exact_mod_cast hb.2 mac lx hx : ((lx.length : ℤ) ≤ 51))
      have := pushTickPoint_len_le
        (m.tick_count,
          (wrapSub U64 (sumAcrossCpus U64 numCpus slots)
            ((alookup m.cumul_byte_counts mac).getD 0) : ℕ))
        (by norm_num : (0 : ℤ) ≤ 50) hprevlen
      rw [hws]
      exact_mod_cast this
    · exact hb.2 mac' l hold

theorem alookup_aremove_some {κ α : Type} [DecidableEq κ] {t : List (κ × α)} {k k' : κ}
    {v : α} (h : alookup (aremove t k) k' = some v) : alookup t k' = some v := by
  by_cases hk : k' = k
  · subst hk
    rw [alookup_aremove_self] at h
    cases h
  · rw [alookup_aremove_ne _ _ _ hk] at h
    exact h

theorem ethPhaseCounters_invariant (numCpus : ℕ) (kp kb : PerCpuMap Mac) (m : EthModel)
    (hws : m.window_size = 50) (hb : seriesLenOk 51 m) :
    (ethPhaseCounters numCpus kp kb m).window_size = 50 ∧
      seriesLenOk 51 (ethPhaseCounters numCpus kp kb m) := by
  unfold ethPhaseCounters
  have step1 : ∀ (l : List (Mac × (ℕ → ℕ))) (acc : EthModel),
      acc.window_size = 50 → seriesLenOk 51 acc →
      (l.foldl (fun a e => ethProcessPacketEntry numCpus a e.1 e.2) acc).window_size = 50 ∧
        seriesLenOk 51 (l.foldl (fun a e => ethProcessPacketEntry numCpus a e.1 e.2) acc) := by
    intro l
    induction l with
    | nil => exact fun acc h1 h2 => ⟨h1, h2⟩
    | cons e t ih =>
      intro acc h1 h2
      simp only [List.foldl_cons]
      exact ih _ ((ethPPE_fields numCpus acc e.1 e.2).2.2.1.trans h1)
        (ethPPE_seriesLenOk h1 h2)
  have step2 : ∀ (l : List (Mac × (ℕ → ℕ))) (acc : EthModel),
      acc.window_size = 50 → seriesLenOk 51 acc →
      (l.foldl (fun a e => ethProcessByteEntry numCpus a e.1 e.2) acc).window_size = 50 ∧
        seriesLenOk 51 (l.foldl (fun a e => ethProcessByteEntry numCpus a e.1 e.2) acc) := by
    intro l
    induction l with
    | nil => exact fun acc h1 h2 => ⟨h1, h2⟩
    | cons e t ih =>
      intro acc h1 h2
      simp only [List.foldl_cons]
      exact ih _ ((ethPBE_fields numCpus acc e.1 e.2).2.2.1.trans h1)
        (ethPBE_seriesLenOk h1 h2)
  have h1 := step1 kp { m with tick_count := m.tick_count + 1 } hws hb
  exact step2 kb _ h1.1 h1.2

theorem ethRemoveLocal_seriesLenOk {m : EthModel} (mac : Mac) (hb : seriesLenOk 51 m) :
    seriesLenOk 51 (ethRemoveLocal m mac) := by
  unfold ethRemoveLocal
  exact ⟨fun mac' l hl => hb.1 mac' l (alookup_aremove_some hl),
    fun mac' l hl => hb.2 mac' l (alookup_aremove_some hl)⟩

theorem ethEvictLoop_invariant (macs : List Mac)
    (st : EthModel × PerCpuMap Mac × PerCpuMap Mac)
    (hws : st.1.window_size = 50) (hb : seriesLenOk 51 st.1) :
    (ethEvictLoop macs st).1.1.window_size = 50 ∧
      seriesLenOk 51 (ethEvictLoop macs st).1.1 := by
  induction macs generalizing st with
  | nil => exact ⟨hws, hb⟩
  | cons x rest ih =>
    unfold ethEvictLoop
    have hws' : (ethRemoveLocal st.1 x).window_size = 50 := hws
    have hb' := ethRemoveLocal_seriesLenOk x hb
    rcases kremove st.2.1 x with _ | kp'
    · exact ⟨hws', hb'⟩
    · rcases kremove st.2.2 x with _ | kb'
      · exact ⟨hws', hb'⟩
      · exact ih (ethRemoveLocal st.1 x, kp', kb') hws' hb'

/-- C3 (amended): with `window_size = 50`, a single push keeps a series
within `W + 1 = 51` points, dropping the oldest point first (the retained
points are a suffix of the old series, in order, with the new point last,
and the head is dropped exactly when the pre-push length exceeds 50); and
a whole tick keeps every stored series within 51 points. -/
theorem c3_series_bounded_by_51 :
    (∀ (ws : ℤ) (l : List (ℤ × ℤ)) (pt : ℤ × ℤ), 0 ≤ ws →
      (((l.length : ℤ) ≤ ws + 1 → ((pushTickPoint ws l pt).length : ℤ) ≤ ws + 1) ∧
        List.IsSuffix (pushTickPoint ws l pt).dropLast l ∧
        (pushTickPoint ws l pt).getLast? = some pt ∧
        ((l.length : ℤ) > ws → (pushTickPoint ws l pt).dropLast = l.drop 1))) ∧
    (∀ (numCpus : ℕ) (kp kb : PerCpuMap Mac) (m : EthModel),
      m.window_size = 50 → seriesLenOk 51 m →
      seriesLenOk 51 (ethOnTick numCpus kp kb m).1.1) := by
  refine ⟨fun ws l pt hws => pushTickPoint_facts ws l pt hws, ?_⟩
  intro numCpus kp kb m hws hb
  obtain ⟨h1, h2⟩ := ethPhaseCounters_invariant numCpus kp kb m hws hb
  obtain ⟨h3, h4⟩ := ethEvictLoop_invariant
    (ethCollectToRemove (ethPhaseCounters numCpus kp kb m))
    (ethPhaseCounters numCpus kp kb m, kp, kb) h1 h2
  simp only [ethOnTick]
  rcases hres : ethEvictLoop (ethCollectToRemove (ethPhaseCounters numCpus kp kb m))
      (ethPhaseCounters numCpus kp kb m, kp, kb) with ⟨st, ok⟩
  rw [hres] at h3 h4
  rcases ok with _ | _
  · simpa using h4
  · by_cases hw : st.1.tick_count > st.1.window_size <;>
      simp only [if_pos rfl, hw, if_true, if_false] <;>
      [skip; exact h4]
    exact ⟨fun mac l hl => h4.1 mac l hl, fun mac l hl => h4.2 mac l hl⟩

/-- C6 (amended): after `attach(i); detach(i); attach(i)` on a known
interface `i`, both series are reset to the single zero-valued point
`[(0, 0)]`, while the kernel cumulative counters are only zero-initialised
when their entry is absent: a pre-existing per-CPU entry survives the
whole sequence unchanged. -/
theorem c6_amended (m : NetIfModel) (kp kb : PerCpuMap ℕ) (i : ℕ) (hi : i ∈ m.interfaces) :
    ∃ r, attachDetachAttach m kp kb i = .ok r ∧
      alookup r.1.tick_packet_count_data i = some [(0, 0)] ∧
      alookup r.1.tick_byte_count_data i = some [(0, 0)] ∧
      (∀ f, alookup kp i = some f → alookup r.2.1 i = some f) ∧
      (alookup kp i = none → alookup r.2.1 i = some (fun _ => 0)) ∧
      (∀ f, alookup kb i = some f → alookup r.2.2 i = some f) ∧
      (alookup kb i = none → alookup r.2.2 i = some (fun _ => 0)) := by
  have hzfun : ∀ (t : PerCpuMap ℕ),
      (alookup (if (alookup t i).isSome then t else ainsert t i (fun _ => 0)) i).isSome
        = true := by
    intro t
    rcases h : alookup t i with _ | f
    · simp [h, alookup_ainsert_self]
    · simp [h]
  set kp1 := (if (alookup kp i).isSome then kp else ainsert kp i (fun _ => 0)) with hkp1
  set kb1 := (if (alookup kb i).isSome then kb else ainsert kb i (fun _ => 0)) with hkb1
  set m1 : NetIfModel := { m with xdp_link_ids := ainsert m.xdp_link_ids i 0 } with hm1
  have hstep1 : attach_ebpf_program m kp kb i = .ok (m1, kp1, kb1) := by
    unfold attach_ebpf_program
    rw [if_pos hi]
  have hlook1 : alookup m1.xdp_link_ids i = some 0 := by
    rw [hm1]
    exact alookup_ainsert_self _ _ _
  set m2 : NetIfModel := { m1 with
      xdp_link_ids := aremove m1.xdp_link_ids i,
      tick_packet_count_data := ainsert m1.tick_packet_count_data i [(0, 0)],
      tick_byte_count_data := ainsert m1.tick_byte_count_data i [(0, 0)] } with hm2
  have hkp1s : (alookup kp1 i).isSome = true := by
    rw [hkp1]
    exact hzfun kp
  have hkb1s : (alookup kb1 i).isSome = true := by
    rw [hkb1]
    exact hzfun kb
  have hstep2 : detach_ebpf_program m1 kp1 kb1 i = .ok (m2, kp1, kb1) := by
    unfold detach_ebpf_program
    rw [hlook1, if_pos hkp1s, if_pos hkb1s]
  have hi2 : i ∈ m2.interfaces := hi
  set m3 : NetIfModel := { m2 with xdp_link_ids := ainsert m2.xdp_link_ids i 0 } with hm3
  have hstep3 : attach_ebpf_program m2 kp1 kb1 i = .ok (m3, kp1, kb1) := by
    unfold attach_ebpf_program
    rw [if_pos hi2, if_pos hkp1s, if_pos hkb1s]
  refine ⟨(m3, kp1, kb1), ?_, ?_, ?_, ?_, ?_, ?_, ?_⟩
  · unfold attachDetachAttach
    rw [hstep1]
    show (detach_ebpf_program m1 kp1 kb1 i).bind _ = _
    rw [hstep2]
    show attach_ebpf_program m2 kp1 kb1 i = _
    exact hstep3
  · exact alookup_ainsert_self _ _ _
  · exact alookup_ainsert_self _ _ _
  · intro f hf
    rw [hkp1, if_pos (by simp [hf])]
    exact hf
  · intro hf
    rw [hkp1, if_neg (by simp [hf])]
    exact alookup_ainsert_self _ _ _
  · intro f hf
    rw [hkb1, if_pos (by simp [hf])]
    exact hf
  · intro hf
    rw [hkb1, if_neg (by simp [hf])]
    exact alookup_ainsert_self _ _ _

/-- C6 counterexample: after `attach(2); detach(2); attach(2)` the kernel
cumulative packet counter of interface 2 still reads 37 — it is only
zero-initialised when absent, never reset — contradicting "cumulative
counter is 0". -/
theorem c6_counterexample :
    ((attachDetachAttach netIfC6 [(2, fun _ => 37)] [(2, fun _ => 4100)] 2).toOption.map
      (fun r => (alookup r.2.1 2).map (fun f => sumAcrossCpus U32 1 f)))
      = some (some 37) ∧ (37 : ℕ) ≠ 0 := by
  constructor
  · decide
  · decide

/-- C6 witness: the amended statement at the concrete counterexample
state. -/
theorem c6_witness :
    (2 ∈ netIfC6.interfaces) ∧
    (∃ r, attachDetachAttach netIfC6 [(2, fun _ => 37)] [(2, fun _ => 4100)] 2 = .ok r ∧
      alookup r.1.tick_packet_count_data 2 = some [(0, 0)] ∧
      alookup r.1.tick_byte_count_data 2 = some [(0, 0)] ∧
      (∀ f, alookup ([(2, fun _ => 37)] : PerCpuMap ℕ) 2 = some f → alookup r.2.1 2 = some f) ∧
      (alookup ([(2, fun _ => 37)] : PerCpuMap ℕ) 2 = none → alookup r.2.1 2 = some (fun _ => 0)) ∧
      (∀ f, alookup ([(2, fun _ => 4100)] : PerCpuMap ℕ) 2 = some f → alookup r.2.2 2 = some f) ∧
      (alookup ([(2, fun _ => 4100)] : PerCpuMap ℕ) 2 = none → alookup r.2.2 2 = some (fun _ => 0))) :=
  ⟨by decide, c6_amended netIfC6 [(2, fun _ => 37)] [(2, fun _ => 4100)] 2 (by decide)⟩

/-- C3 counterexample: starting from the startup state (one zero point in
the series) and a kernel counter that stays at zero, after 50 ticks the
packet series of interface 2 holds 51 points — more than the claimed
bound W = 50. -/
theorem c3_counterexample :
    ((alookup (runNetIfTicks 1 [(2, fun _ => 0)] [(2, fun _ => 0)] 50
        netIfInit2).tick_packet_count_data 2).getD []).length = 51 ∧ ¬ (51 ≤ 50) := by
  constructor
  · decide
  · decide

/-- C3 witness: the push-level facts at `ws = 50` on a one-point series,
and the tick-level bound on a state with no stored series. -/
theorem c3_witness :
    ((0 : ℤ) ≤ 50 ∧
      (⟨[], [], [], [], [], [], 0, 50, (0, 50)⟩ : EthModel).window_size = 50 ∧
      seriesLenOk 51 (⟨[], [], [], [], [], [], 0, 50, (0, 50)⟩ : EthModel)) ∧
    ((((([((3 : ℤ), (4 : ℤ))] : List (ℤ × ℤ)).length : ℤ) ≤ 50 + 1 →
        ((pushTickPoint 50 [((3 : ℤ), (4 : ℤ))] (5, 6)).length : ℤ) ≤ 50 + 1) ∧
      List.IsSuffix (pushTickPoint 50 [((3 : ℤ), (4 : ℤ))] (5, 6)).dropLast
        [((3 : ℤ), (4 : ℤ))] ∧
      (pushTickPoint 50 [((3 : ℤ), (4 : ℤ))] (5, 6)).getLast? = some (5, 6) ∧
      ((([((3 : ℤ), (4 : ℤ))] : List (ℤ × ℤ)).length : ℤ) > 50 →
        (pushTickPoint 50 [((3 : ℤ), (4 : ℤ))] (5, 6)).dropLast
          = ([((3 : ℤ), (4 : ℤ))] : List (ℤ × ℤ)).drop 1)) ∧
    seriesLenOk 51 (ethOnTick 1 [] [] (⟨[], [], [], [], [], [], 0, 50, (0, 50)⟩ : EthModel)).1.1) :=
  ⟨⟨by norm_num, rfl, ⟨fun mac l h => by simp [alookup] at h, fun mac l h => by simp [alookup] at h⟩⟩,
    c3_series_bounded_by_51.1 50 [((3 : ℤ), (4 : ℤ))] (5, 6) (by norm_num),
    c3_series_bounded_by_51.2 1 [] [] ⟨[], [], [], [], [], [], 0, 50, (0, 50)⟩ rfl
      ⟨fun mac l h => by simp [alookup] at h, fun mac l h => by simp [alookup] at h⟩⟩

/-- C1: at previous = 100, current = 40 — the spec's own example — the
tick records the wrapped delta `2 ^ 32 - 60 = 4294967236`, not the clamped
value 40: the source computes `(across_cpus_val - prev_val) as f64` with
plain unsigned subtraction (wrapping in release builds; an overflow panic
in debug builds), with no clamping to the current value. -/
theorem c1_wrapped_delta_recorded :
    alookup ((ethOnTick 1 [(macA, fun _ => 40)] [(macA, fun _ => 0)]
        m0c1).1.1).tick_packet_count_data macA
      = some [(1, 4294967236)] ∧ ((4294967236 : ℤ) ≠ 40) := by
  constructor
  · decide
  · decide

/-- C5: when the idle MAC's kernel entries are already gone (here: empty
kernel tables, as after a kernel-side LRU eviction), the eviction pass's
kernel delete fails and `on_tick` propagates the error (`?`) instead of
treating the absent key as success — the tick fails, though the local
state of the MAC was already removed. -/
theorem c5_absent_key_delete_fails_tick :
    (ethOnTick 1 [] [] m0c5).2 = false ∧
    alookup ((ethOnTick 1 [] [] m0c5).1.1).last_active_tick macA = none := by
  constructor
  · decide
  · decide

/-- C4: (i) a MAC's last-active tick is updated only on a strictly
positive packet delta (`across_cpus_val > prev_val`), and then to the
current tick; (ii) on an error-free tick, every tracked MAC whose
last-active tick lies more than the idle-timeout tick count in the past
is evicted: absent from the tracked set (its last-active entry, counters
and series) and from both backing kernel tables in the resulting state;
(iii) an entry for an untracked MAC starts a fresh one-point series, not
a continuation of old history. -/
theorem c4_idle_eviction_fresh_rebirth :
    (∀ (numCpus : ℕ) (m : EthModel) (mac : Mac) (slots : ℕ → ℕ),
      (¬ sumAcrossCpus U32 numCpus slots > ethPrevPacketVal m mac →
        (ethProcessPacketEntry numCpus m mac slots).last_active_tick
          = m.last_active_tick) ∧
      (sumAcrossCpus U32 numCpus slots > ethPrevPacketVal m mac →
        alookup (ethProcessPacketEntry numCpus m mac slots).last_active_tick mac
          = some m.tick_count)) ∧
    (∀ (numCpus : ℕ) (kp kb : PerCpuMap Mac) (m : EthModel) (mac : Mac) (v : ℤ),
      alookup (ethPhaseCounters numCpus kp kb m).last_active_tick mac = some v →
      (ethPhaseCounters numCpus kp kb m).tick_count - v
          > IDLE_MAC_ADDR_TIMEOUT_NUM_TICKS →
      (ethOnTick numCpus kp kb m).2 = true →
      evictedState (ethOnTick numCpus kp kb m).1 mac) ∧
    (∀ (numCpus : ℕ) (m : EthModel) (mac : Mac) (slots : ℕ → ℕ),
      alookup m.last_active_tick mac = none →
      alookup (ethProcessPacketEntry numCpus m mac slots).tick_packet_count_data mac
        = some [(m.tick_count, (sumAcrossCpus U32 numCpus slots : ℤ))]) :=
  ⟨fun numCpus m mac slots =>
    ⟨ethPPE_last_unchanged numCpus m mac slots, ethPPE_last_set_now numCpus m mac slots⟩,
    fun numCpus kp kb m mac v => ethOnTick_evicts_idle numCpus kp kb m mac v,
    fun numCpus m mac slots => ethPPE_fresh_series numCpus m mac slots⟩

/-- C4 witness: `macA`, idle since tick 1, at tick 1601 with no new
traffic, is evicted on an error-free tick; and a fresh-state entry for
`macA` yields a one-point series. -/
theorem c4_witness :
    (alookup (ethPhaseCounters 1 kpC4 kbC4 m0c5).last_active_tick macA = some 1 ∧
      (ethPhaseCounters 1 kpC4 kbC4 m0c5).tick_count - 1
          > IDLE_MAC_ADDR_TIMEOUT_NUM_TICKS ∧
      (ethOnTick 1 kpC4 kbC4 m0c5).2 = true ∧
      alookup (⟨[], [], [], [], [], [], 8, 50, (0, 50)⟩ : EthModel).last_active_tick macA
        = none ∧
      ¬ sumAcrossCpus U32 1 (fun _ => (0 : ℕ))
          > ethPrevPacketVal m0c5 macA) ∧
    (evictedState (ethOnTick 1 kpC4 kbC4 m0c5).1 macA ∧
      alookup (ethProcessPacketEntry 1 (⟨[], [], [], [], [], [], 8, 50, (0, 50)⟩ : EthModel)
          macA (fun _ => (0 : ℕ))).tick_packet_count_data macA
        = some [(8, (sumAcrossCpus U32 1 (fun _ => (0 : ℕ)) : ℤ))] ∧
      (ethProcessPacketEntry 1 m0c5 macA (fun _ => (0 : ℕ))).last_active_tick
        = m0c5.last_active_tick) :=
  ⟨⟨by decide, by decide, by decide, by decide, by decide⟩,
    c4_idle_eviction_fresh_rebirth.2.1 1 kpC4 kbC4 m0c5 macA 1
        (by decide) (by decide) (by decide),
    c4_idle_eviction_fresh_rebirth.2.2 1 ⟨[], [], [], [], [], [], 8, 50, (0, 50)⟩ macA
        (fun _ => (0 : ℕ)) (by decide),
    (c4_idle_eviction_fresh_rebirth.1 1 m0c5 macA (fun _ => (0 : ℕ))).1 (by decide)⟩

/-- C9 counterexample: userspace looks the interface tables up under
names the kernel program never defines — `INGRESS_PACKET_COUNTERS` versus
`INTERFACE_RX_PACKET_COUNTERS` (and the byte twin) — so the claim that
both sides use the same names is false (the `map_mut(..).unwrap()` on the
missing name panics at startup). -/
theorem c9_counterexample :
    userInterfacePacketMapName ≠ ebpfInterfacePacketMapName ∧
    userInterfaceByteMapName ≠ ebpfInterfaceByteMapName := by
  constructor
  · decide
  · decide

/-- C9 (amended): the shared crate does define `Counter = {bytes: 8-byte,
packets: 4-byte}` in that order, but the kernel tables carry bare 32-bit
packet and 64-bit byte values in four separate maps — none carries the
96-bit record — and while the two source-MAC tables are looked up by the
kernel's own names, the interface tables are looked up under different
names; per-map value widths do agree between the two sides. -/
theorem c9_names_and_layout :
    counterRecordLayout = [("bytes", 8), ("packets", 4)] ∧
    (∀ e ∈ ebpfMapValueBits, e.2 ≠ counterRecordBits) ∧
    userSrcMacPacketMapName = ebpfSrcMacPacketMapName ∧
    userSrcMacByteMapName = ebpfSrcMacByteMapName ∧
    userInterfacePacketMapName ≠ ebpfInterfacePacketMapName ∧
    userInterfaceByteMapName ≠ ebpfInterfaceByteMapName ∧
    (userMapValueBits.map (fun e => e.2)) = (ebpfMapValueBits.map (fun e => e.2)) := by
  refine ⟨rfl, ?_, rfl, rfl, ?_, ?_, rfl⟩
  · decide
  · decide
  · decide
